import Mathlib

/-!
Verification of the light-fx effect engine against its specification.

The development shallowly embeds the Python sources
(color_manager.py, effect_engine.py, light_manager.py, main.py) in Lean 4:

* Real-valued quantities (color channels, palette positions, elapsed time)
  are modelled as rationals; Python float arithmetic is idealized to exact
  arithmetic, as the specification speaks in exact real numbers.
* Python int() truncation and the float modulo operator are modelled
  explicitly (ratTrunc, py_mod).
* Fallible Python code (raising exceptions, or falling off the end of a
  function and returning None) is modelled with Except and Option.
* A colour-library Color object is modelled by its rgb channels; the
  library's internal HSL representation round-trips exactly in exact
  arithmetic, so it is observationally an rgb triple.
-/

deriving instance DecidableEq for Except

/-- Python int(): truncation of a rational toward zero. -/
def ratTrunc (q : ℚ) : ℤ := if 0 ≤ q then ⌊q⌋ else ⌈q⌉

/-- Python float modulo x % m for m > 0: the result has the sign of the
divisor, so it equals x - m * floor (x / m). -/
def py_mod (x m : ℚ) : ℚ := x - m * ⌊x / m⌋

/-- A colour-library Color value, modelled by its rgb channels in [0,1]. -/
structure Color where
  red : ℚ
  green : ℚ
  blue : ℚ
deriving DecidableEq, Repr

/-- color_manager.ColorPoint: a color plus a position in [0,100]. -/
structure ColorPoint where
  color : Color
  position : ℚ
deriving DecidableEq, Repr

/-- color_manager.Palette: a named palette with a list of color points and a
type tag ("static", "gradient" or "dynamic"). The parameters bag only carries
the variation amount of dynamic palettes. -/
structure Palette where
  name : String
  colors : List ColorPoint
  type : String
  variation : Option ℚ := none
deriving DecidableEq, Repr

/-- colorsys.rgb_to_hsv translated to exact rational arithmetic.
Python's (h / 6.0) % 1.0 on a float is h / 6 - floor (h / 6). -/
def rgb_to_hsv (r g b : ℚ) : ℚ × ℚ × ℚ :=
  let maxc := max r (max g b)
  let minc := min r (min g b)
  let v := maxc
  if minc = maxc then (0, 0, v)
  else
    let s := (maxc - minc) / maxc
    let rc := (maxc - r) / (maxc - minc)
    let gc := (maxc - g) / (maxc - minc)
    let bc := (maxc - b) / (maxc - minc)
    let h0 := if r = maxc then bc - gc
              else if g = maxc then 2 + rc - bc
              else 4 + gc - rc
    (h0 / 6 - ⌊h0 / 6⌋, s, v)

/-- colorsys.hsv_to_rgb translated to exact rational arithmetic.
Python's int(h * 6.0) truncates toward zero and i % 6 on ints is the
Euclidean (nonnegative) remainder. -/
def hsv_to_rgb (h s v : ℚ) : ℚ × ℚ × ℚ :=
  if s = 0 then (v, v, v)
  else
    let i6 : ℤ := ratTrunc (h * 6)
    let f : ℚ := h * 6 - i6
    let p := v * (1 - s)
    let q := v * (1 - s * f)
    let t := v * (1 - s * (1 - f))
    let i := i6 % 6
    if i = 0 then (v, t, p)
    else if i = 1 then (q, v, p)
    else if i = 2 then (p, v, t)
    else if i = 3 then (p, q, v)
    else if i = 4 then (t, p, v)
    else (v, p, q)

/-- ColorManager._interpolate_hue: interpolate hue the short way around the
color wheel (source lines 148-160). -/
def interpolate_hue (h1 h2 t : ℚ) : ℚ :=
  let diff := h2 - h1
  let h2a := if diff > 1/2 then h2 - 1 else if diff < -(1/2) then h2 + 1 else h2
  let h := h1 + (h2a - h1) * t
  if h < 0 then h + 1 else if h > 1 then h - 1 else h

/-- ColorManager._interpolate_color: interpolate between two colors in HSV
space (source lines 133-146). -/
def interpolate_color (c1 c2 : Color) (t : ℚ) : Color :=
  let hsv1 := rgb_to_hsv c1.red c1.green c1.blue
  let hsv2 := rgb_to_hsv c2.red c2.green c2.blue
  let h := interpolate_hue hsv1.1 hsv2.1 t
  let s := hsv1.2.1 + (hsv2.2.1 - hsv1.2.1) * t
  let v := hsv1.2.2 + (hsv2.2.2 - hsv1.2.2) * t
  let rgb := hsv_to_rgb h s v
  ⟨rgb.1, rgb.2.1, rgb.2.2⟩

/-- Python min(colors, key=lambda x: abs(x.position - position)): first
element with minimal key; min() raises on an empty list, hence Option. -/
def min_by_dist (pos : ℚ) : List ColorPoint → Option ColorPoint
  | [] => none
  | c :: cs =>
      some (cs.foldl (fun best x =>
        if |x.position - pos| < |best.position - pos| then x else best) c)

/-- The scan loop of the gradient branch of get_color_at_position (source
lines 119-128): find the first adjacent pair of sorted stops whose positions
surround the query position and interpolate there. -/
def find_seg (pos : ℚ) : List ColorPoint → Option Color
  | c1 :: c2 :: rest =>
      if c1.position ≤ pos ∧ pos ≤ c2.position then
        some (if c2.position - c1.position = 0 then c1.color
              else interpolate_color c1.color c2.color
                ((pos - c1.position) / (c2.position - c1.position)))
      else find_seg pos (c2 :: rest)
  | _ => none

/-- Python sorted(palette.colors, key=lambda x: x.position) is a stable sort
by position; insertion sort with the non-strict order is stable and produces
the same list. -/
def sort_stops (l : List ColorPoint) : List ColorPoint :=
  l.insertionSort (fun a b => a.position ≤ b.position)

/-- ColorManager.get_color_at_position (source lines 103-131). An unknown
palette name raises ValueError (Except.error); min() of an empty static
palette and indexing an empty gradient palette raise as well. A palette
whose type is neither "static" nor "gradient" (the "dynamic" builtin
"fire") falls off the end of the Python function and returns None, modelled
by .ok none. -/
def get_color_at_position (palettes : List (String × Palette))
    (name : String) (pos : ℚ) : Except String (Option Color) :=
  match palettes.lookup name with
  | none => .error "Palette not found"
  | some palette =>
    if palette.type = "static" then
      match min_by_dist pos palette.colors with
      | none => .error "min() arg is an empty sequence"
      | some c => .ok (some c.color)
    else if palette.type = "gradient" then
      let colors := sort_stops palette.colors
      match find_seg pos colors with
      | some c => .ok (some c)
      | none =>
        match colors.getLast?, colors.head? with
        | some lastc, some firstc =>
            .ok (some (if pos > lastc.position then lastc.color else firstc.color))
        | _, _ => .error "list index out of range"
    else .ok none

/-- The builtin "rainbow" palette: seven gradient stops using the colour
library's named colors (CSS names: green is #008000, orange #ffa500,
indigo #4b0082, violet #ee82ee). -/
def rainbow_palette : Palette :=
  { name := "rainbow"
    type := "gradient"
    colors :=
      [ ⟨⟨1, 0, 0⟩, 0⟩,
        ⟨⟨1, 165/255, 0⟩, 166/10⟩,
        ⟨⟨1, 1, 0⟩, 333/10⟩,
        ⟨⟨0, 128/255, 0⟩, 50⟩,
        ⟨⟨0, 0, 1⟩, 666/10⟩,
        ⟨⟨75/255, 0, 130/255⟩, 833/10⟩,
        ⟨⟨238/255, 130/255, 238/255⟩, 100⟩ ] }

/-- The builtin "fire" palette: a dynamic palette with three stops and a
variation parameter of 20. -/
def fire_palette : Palette :=
  { name := "fire"
    type := "dynamic"
    colors :=
      [ ⟨⟨1, 0, 0⟩, 0⟩,
        ⟨⟨1, 136/255, 0⟩, 50⟩,
        ⟨⟨1, 1, 0⟩, 100⟩ ]
    variation := some 20 }

/-- ColorManager._init_default_palettes: the palette store of a freshly
constructed ColorManager. No registration API exists in the source, so this
is the palette store for the process lifetime. -/
def default_palettes : List (String × Palette) :=
  [("rainbow", rainbow_palette), ("fire", fire_palette)]

/-- The endpoint adjustment of _interpolate_hue: when the raw difference
exceeds half a turn, the far endpoint is wrapped by a full turn. -/
def hue_endpoint_adjust (h1 h2 : ℚ) : ℚ :=
  if h2 - h1 > 1/2 then h2 - 1 else if h2 - h1 < -(1/2) then h2 + 1 else h2

/-- All channels of a color are nonnegative. -/
def ColorNonneg (c : Color) : Prop := 0 ≤ c.red ∧ 0 ≤ c.green ∧ 0 ≤ c.blue

instance stop_le_total : IsTotal ColorPoint (fun a b => a.position ≤ b.position) :=
  ⟨fun a b => le_total a.position b.position⟩

instance stop_le_trans : IsTrans ColorPoint (fun a b => a.position ≤ b.position) :=
  ⟨fun _ _ _ hab hbc => le_trans hab hbc⟩

/-- effect_engine.EffectConfig (source lines 13-20). No validation or
clamping is applied anywhere in the source; fields hold whatever the
service call supplied. -/
structure EffectConfig where
  speed : ℤ := 50
  intensity : ℤ := 100
  palette_name : String := "rainbow"
  reverse : Bool := false
  mirror : Bool := false
deriving DecidableEq, Repr

/-- One channel of int(c * config.intensity / 100) where c is a channel
value already scaled by 255. -/
def scale_channel (x : ℚ) (intensity : ℤ) : ℤ := ratTrunc (x * intensity / 100)

/-- get_color_at_position on the process palette store followed by the
attribute accesses color.red and friends: a None result raises
AttributeError, and a lookup error propagates. -/
def get_color_strict (name : String) (pos : ℚ) : Except String Color :=
  match get_color_at_position default_palettes name pos with
  | .error e => .error e
  | .ok none => .error "AttributeError"
  | .ok (some c) => .ok c

/-- Python dict assignment updates[key] = value: replace in place when the
key is present, else append. -/
def upsert {β : Type} (m : List (String × β)) (k : String) (v : β) :
    List (String × β) :=
  if m.any (fun p => p.1 == k) then m.map (fun p => if p.1 = k then (k, v) else p)
  else m ++ [(k, v)]

/-- The rgb list computed by RainbowEffect.generate_frame for light index i
(source lines 45-56): palette position, optional reverse, hardcoded
"rainbow" palette lookup, intensity scaling with int() truncation. -/
def rainbow_light_rgb (n : ℕ) (cfg : EffectConfig) (elapsed : ℚ) (i : ℕ) :
    Except String (List ℤ) :=
  let pos0 := py_mod (((i : ℚ) / (n : ℚ)) * 100 +
    elapsed * ((cfg.speed : ℚ) / 50) * 20) 100
  let pos := if cfg.reverse then 100 - pos0 else pos0
  match get_color_strict "rainbow" pos with
  | .error e => .error e
  | .ok c => .ok [scale_channel (c.red * 255) cfg.intensity,
      scale_channel (c.green * 255) cfg.intensity,
      scale_channel (c.blue * 255) cfg.intensity]

/-- The enumerate loop of RainbowEffect.generate_frame, including the
mirroring overwrite updates[light_ids[n-1-i]] = updates[light_id] for
i >= n // 2 (source lines 45-61). -/
def rainbow_loop (lights : List String) (n : ℕ) (cfg : EffectConfig)
    (elapsed : ℚ) :
    ℕ → List String → List (String × List ℤ) →
      Except String (List (String × List ℤ))
  | _, [], updates => .ok updates
  | i, lid :: rest, updates =>
      match rainbow_light_rgb n cfg elapsed i with
      | .error e => .error e
      | .ok rgb =>
        rainbow_loop lights n cfg elapsed (i + 1) rest
          (if cfg.mirror = true ∧ n / 2 ≤ i then
            upsert (upsert updates lid rgb) (lights.getD (n - 1 - i) "") rgb
          else upsert updates lid rgb)

/-- RainbowEffect.generate_frame (source lines 37-63), with the elapsed
time time.time() - self._start_time passed explicitly. -/
def rainbow_frame (lights : List String) (cfg : EffectConfig) (elapsed : ℚ) :
    Except String (List (String × List ℤ)) :=
  rainbow_loop lights lights.length cfg elapsed 0 lights []

/-- The enumerate loop of ColorWipeEffect.generate_frame (source lines
79-91): the index is reversed first when configured, lit lights take the
palette color at (i/n)*100, the rest are driven to zero. -/
def color_wipe_loop (n : ℕ) (cfg : EffectConfig) (active : ℤ) :
    ℕ → List String → List (String × List ℤ) →
      Except String (List (String × List ℤ))
  | _, [], updates => .ok updates
  | idx, lid :: rest, updates =>
      let i := if cfg.reverse then n - 1 - idx else idx
      if (i : ℤ) < active then
        match get_color_strict cfg.palette_name (((i : ℚ) / (n : ℚ)) * 100) with
        | .error e => .error e
        | .ok c =>
          color_wipe_loop n cfg active (idx + 1) rest
            (upsert updates lid [scale_channel (c.red * 255) cfg.intensity,
              scale_channel (c.green * 255) cfg.intensity,
              scale_channel (c.blue * 255) cfg.intensity])
      else
        color_wipe_loop n cfg active (idx + 1) rest (upsert updates lid [0, 0, 0])

/-- ColorWipeEffect.generate_frame (source lines 68-93). Line 77 indexes
self.color_manager.palettes[config.palette_name] before the loop, raising
KeyError for an unregistered palette name. active_lights is
int((elapsed * speed_factor * 2) % (num_lights + 1)). -/
def color_wipe_frame (lights : List String) (cfg : EffectConfig) (elapsed : ℚ) :
    Except String (List (String × List ℤ)) :=
  let n := lights.length
  let active := ratTrunc (py_mod (elapsed * ((cfg.speed : ℚ) / 50) * 2) ((n : ℚ) + 1))
  match default_palettes.lookup cfg.palette_name with
  | none => .error "KeyError"
  | some _ => color_wipe_loop n cfg active 0 lights []

/-- Proof device: the rgb value of the rainbow light computation, which is
always defined. -/
def rainbow_rgb_val (n : ℕ) (cfg : EffectConfig) (elapsed : ℚ) (i : ℕ) :
    List ℤ :=
  match rainbow_light_rgb n cfg elapsed i with
  | .ok v => v
  | .error _ => []

/-- Index of the loop iteration whose computed rgb light j displays after
the first m iterations of the rainbow loop: the mirroring overwrite from
iteration n-1-j wins once it has happened (proof device). -/
def mirror_src (n m j : ℕ) (mir : Bool) : ℕ :=
  if mir = true ∧ n / 2 ≤ n - 1 - j ∧ n - 1 - j < m then n - 1 - j else j

/-- The updates dictionary after the first m iterations of the rainbow loop
(proof device). -/
def rainbow_expected (lights : List String) (cfg : EffectConfig) (elapsed : ℚ)
    (m : ℕ) : List (String × List ℤ) :=
  (List.range m).map (fun j =>
    (lights.getD j "",
     rainbow_rgb_val lights.length cfg elapsed
       (mirror_src lights.length m j cfg.mirror)))

/-- The index used by the wipe loop for the light at enumerate position
idx. -/
def wipe_idx (n : ℕ) (rev : Bool) (idx : ℕ) : ℕ := if rev then n - 1 - idx else idx

/-- Proof device: the scaled color a lit wipe light shows. -/
def wipe_rgb_val (n : ℕ) (cfg : EffectConfig) (i : ℕ) : List ℤ :=
  match get_color_strict cfg.palette_name (((i : ℚ) / (n : ℚ)) * 100) with
  | .ok c => [scale_channel (c.red * 255) cfg.intensity,
      scale_channel (c.green * 255) cfg.intensity,
      scale_channel (c.blue * 255) cfg.intensity]
  | .error _ => []

/-- Proof device: the wipe updates dictionary after m iterations. -/
def wipe_expected (lights : List String) (cfg : EffectConfig) (active : ℤ)
    (m : ℕ) : List (String × List ℤ) :=
  (List.range m).map (fun idx =>
    (lights.getD idx "",
     if (wipe_idx lights.length cfg.reverse idx : ℤ) < active
     then wipe_rgb_val lights.length cfg (wipe_idx lights.length cfg.reverse idx)
     else [0, 0, 0]))

/-- Events observable on the effect engine: frames applied by running
tasks, task cancellation, awaited task exit, sequence turn-off, and task
creation. The trace lists events oldest first. -/
inductive Ev where
  | frame (tid : ℕ)
  | cancel (tid : ℕ)
  | task_exit (tid : ℕ)
  | seq_off (s : String)
  | spawn (tid : ℕ) (s : String)
deriving DecidableEq, Repr

/-- One value of the EffectEngine._running_effects dict: effect name,
config, and the asyncio task handle (modelled by a task id). -/
structure RunningEffect where
  effect_name : String
  config : EffectConfig
  task_id : ℕ
deriving DecidableEq, Repr

/-- The effect-engine state: the _running_effects dict, the set of
cancelled task ids, a fresh task-id counter, and the event trace. -/
structure EngineState where
  running_effects : List (String × RunningEffect)
  cancelled : List ℕ
  next_task : ℕ
  trace : List Ev
deriving DecidableEq, Repr

/-- The effect names registered in EffectEngine.__init__. -/
def engine_effects : List String := ["rainbow", "color_wipe", "twinkle"]

def init_engine : EngineState :=
  { running_effects := [], cancelled := [], next_task := 0, trace := [] }

/-- EffectEngine.stop_effect (source lines 173-184): when a record exists,
cancel its task, await the task until it observes cancellation and exits
(after task.cancel() every suspension point of _run_effect re-raises
CancelledError, so the awaited task applies no further frame), delete the
record, and turn the sequence's lights off. A missing record is a no-op. -/
def stop_effect (st : EngineState) (s : String) : EngineState :=
  match st.running_effects.lookup s with
  | none => st
  | some re =>
    { st with
      running_effects := st.running_effects.filter (fun p => ¬ p.1 = s)
      cancelled := re.task_id :: st.cancelled
      trace := st.trace ++ [.cancel re.task_id, .task_exit re.task_id, .seq_off s] }

/-- EffectEngine.start_effect (source lines 156-171): stop any running
effect on the sequence first, then look up the sequence and the effect kind
(raising ValueError on either miss), then spawn the periodic task and
install the RunningEffect record. The ValueError branches return the state
mutated by the initial stop. sequences models
light_manager.sequences.keys(). -/
def start_effect (sequences : List String) (st : EngineState) (s e : String)
    (cfg : EffectConfig) : EngineState × Except String Unit :=
  let st1 := stop_effect st s
  if ¬ sequences.contains s then (st1, .error "Sequence not found")
  else if ¬ engine_effects.contains e then (st1, .error "Effect not found")
  else
    ({ st1 with
        running_effects := upsert st1.running_effects s
          ⟨e, cfg, st1.next_task⟩
        next_task := st1.next_task + 1
        trace := st1.trace ++ [.spawn st1.next_task s] }, .ok ())

/-- Concurrency model of the engine under the asyncio event loop: service
calls run one at a time (the websocket listener awaits each handler), and
between service calls the running periodic tasks may apply frames. A task
applies a frame only while its RunningEffect record is installed and its
task is not cancelled: after task.cancel(), every suspension point in
_run_effect and update_light re-raises CancelledError, so a cancelled task
applies no further frame, and stop_effect awaits the task's exit before
deleting the record. -/
inductive EngineStep (sequences : List String) : EngineState → EngineState → Prop
  | frame (st : EngineState) (s : String) (re : RunningEffect)
      (hlk : st.running_effects.lookup s = some re)
      (hnc : re.task_id ∉ st.cancelled) :
      EngineStep sequences st { st with trace := st.trace ++ [.frame re.task_id] }
  | service_start (st : EngineState) (s e : String) (cfg : EffectConfig) :
      EngineStep sequences st (start_effect sequences st s e cfg).1
  | service_stop (st : EngineState) (s : String) :
      EngineStep sequences st (stop_effect st s)

/-- Engine states reachable from process start. -/
def EngineReach (sequences : List String) (st : EngineState) : Prop :=
  Relation.ReflTransGen (EngineStep sequences) init_engine st

/-- Inductive invariant of the engine. -/
structure EngineInv (st : EngineState) : Prop where
  keys_nodup : (st.running_effects.map Prod.fst).Nodup
  cancel_in_trace : ∀ t, Ev.cancel t ∈ st.trace → t ∈ st.cancelled
  spawn_lt : ∀ t s, Ev.spawn t s ∈ st.trace → t < st.next_task
  run_spawned : ∀ p ∈ st.running_effects, Ev.spawn p.2.task_id p.1 ∈ st.trace
  no_frame_after_cancel : ∀ i l t, st.trace.get? i = some (.cancel t) →
    st.trace.get? l = some (.frame t) → l < i
  frame_has_spawn : ∀ k t, st.trace.get? k = some (.frame t) →
    ∃ j s, j < k ∧ st.trace.get? j = some (.spawn t s)
  spawn_unique : ∀ j j2 t s s2, st.trace.get? j = some (.spawn t s) →
    st.trace.get? j2 = some (.spawn t s2) → j = j2

/-- light_manager.LightSequence: the member light ids plus the fetched
per-light state objects (the two ha_api.get_state responses per light,
abstract here). -/
structure LightSequenceModel (α : Type) where
  light_ids : List String
  fetched : List (String × α × α)

/-- The per-light fetch loop of LightManager.create_sequence (source lines
53-55): _fetch_capabilities then _fetch_state for each light in order; both
call ha_api.get_state, whose network outcomes the oracles get_caps and
get_st model; an exception aborts the whole loop and propagates. -/
def fetch_all {α : Type} (get_caps get_st : String → Except String α) :
    List String → Except String (List (String × α × α))
  | [] => .ok []
  | lid :: rest =>
    match get_caps lid with
    | .error e => .error e
    | .ok c1 =>
      match get_st lid with
      | .error e => .error e
      | .ok c2 =>
        match fetch_all get_caps get_st rest with
        | .error e => .error e
        | .ok tail => .ok ((lid, c1, c2) :: tail)

/-- LightManager.create_sequence (source lines 49-57): build the sequence
object, fetch capabilities and state for every light, and only then store
the sequence in self.sequences; a fetch exception propagates before the
store, leaving the registry map unchanged. -/
def create_sequence {α : Type} (get_caps get_st : String → Except String α)
    (seqs : List (String × LightSequenceModel α)) (name : String)
    (light_ids : List String) :
    List (String × LightSequenceModel α) ×
      Except String (LightSequenceModel α) :=
  match fetch_all get_caps get_st light_ids with
  | .error e => (seqs, .error e)
  | .ok data => (upsert seqs name ⟨light_ids, data⟩, .ok ⟨light_ids, data⟩)

/-- A gradient palette with two stops at the same position 50. -/
def dup_palette : Palette :=
  { name := "dup"
    type := "gradient"
    colors := [⟨⟨1, 0, 0⟩, 50⟩, ⟨⟨0, 0, 1⟩, 50⟩] }

/-- Proof device: a concrete config (the dataclass defaults) used by the
reachable example state. -/
def c2_cfg : EffectConfig := {}

/-- Proof device: the engine state after starting rainbow on seq1, one
frame, a second start (which cancels and awaits task 0), and one frame of
the new task 1. -/
def c2_state : EngineState :=
  { running_effects := [("seq1", ⟨"rainbow", c2_cfg, 1⟩)]
    cancelled := [0]
    next_task := 2
    trace := [.spawn 0 "seq1", .frame 0, .cancel 0, .task_exit 0,
      .seq_off "seq1", .spawn 1 "seq1", .frame 1] }

/-- Failing oracle for the C8 witness: capability fetch fails for light
"bad". -/
def w_gc (lid : String) : Except String ℕ :=
  if lid = "bad" then .error "boom" else .ok 0

/-- State oracle for the C8 witness: always succeeds. -/
def w_gs (_lid : String) : Except String ℕ := .ok 0

theorem py_mod_eq_mul_fract (x m : ℚ) (hm : m ≠ 0) :
    py_mod x m = m * Int.fract (x / m) := by
  unfold py_mod Int.fract
  field_simp

theorem py_mod_nonneg (x m : ℚ) (hm : 0 < m) : 0 ≤ py_mod x m := by
  have h := Int.fract_nonneg (x / m)
  rw [py_mod_eq_mul_fract x m hm.ne']
  positivity

theorem py_mod_lt (x m : ℚ) (hm : 0 < m) : py_mod x m < m := by
  have h := Int.fract_lt_one (x / m)
  rw [py_mod_eq_mul_fract x m hm.ne']
  calc m * Int.fract (x / m) < m * 1 := by
        exact (mul_lt_mul_left hm).mpr h
    _ = m := mul_one m

theorem ratTrunc_of_nonneg {q : ℚ} (h : 0 ≤ q) : ratTrunc q = ⌊q⌋ := by
  simp [ratTrunc, h]

theorem sub_floor_nonneg (x : ℚ) : 0 ≤ x - ⌊x⌋ := by
  have h := Int.fract_nonneg x
  unfold Int.fract at h
  exact h

theorem sub_floor_lt_one (x : ℚ) : x - ⌊x⌋ < 1 := by
  have h := Int.fract_lt_one x
  unfold Int.fract at h
  exact h

/-- Evaluation of hsv_to_rgb when h * 6 lies in sector k; this is the
Python if-chain on i = int(h * 6) % 6 made explicit. -/
theorem hsv_sector_eval (h s v : ℚ) (hs : s ≠ 0) (k : ℕ) (hk : k < 6)
    (h1 : (k : ℚ) ≤ h * 6) (h2 : h * 6 < (k : ℚ) + 1) :
    hsv_to_rgb h s v =
      if k = 0 then (v, v * (1 - s * (1 - (h * 6 - k))), v * (1 - s))
      else if k = 1 then (v * (1 - s * (h * 6 - k)), v, v * (1 - s))
      else if k = 2 then (v * (1 - s), v, v * (1 - s * (1 - (h * 6 - k))))
      else if k = 3 then (v * (1 - s), v * (1 - s * (h * 6 - k)), v)
      else if k = 4 then (v * (1 - s * (1 - (h * 6 - k))), v * (1 - s), v)
      else (v, v * (1 - s), v * (1 - s * (h * 6 - k))) := by
  have h0 : (0:ℚ) ≤ h * 6 := le_trans (by positivity) h1
  have hfl : ⌊h * 6⌋ = (k : ℤ) := by
    rw [Int.floor_eq_iff]
    constructor
    · exact_mod_cast h1
    · push_cast
      exact h2
  unfold hsv_to_rgb
  rw [if_neg hs, ratTrunc_of_nonneg h0, hfl]
  interval_cases k <;> norm_num

/-- colorsys round trip in exact arithmetic: converting nonnegative rgb
channels to hsv and back returns them unchanged. -/
theorem hsv_round_trip (r g b h s v : ℚ) (hr : 0 ≤ r) (hg : 0 ≤ g) (hb : 0 ≤ b)
    (hhsv : rgb_to_hsv r g b = (h, s, v)) : hsv_to_rgb h s v = (r, g, b) := by
  simp only [rgb_to_hsv] at hhsv
  by_cases heq : min r (min g b) = max r (max g b)
  · rw [if_pos heq, Prod.mk.injEq, Prod.mk.injEq] at hhsv
    obtain ⟨hh, hs, hv⟩ := hhsv
    subst hh hs hv
    have hrM : r = max r (max g b) :=
      le_antisymm (le_max_left _ _) (heq ▸ min_le_left _ _)
    have hgM : g = max r (max g b) :=
      le_antisymm (le_max_of_le_right (le_max_left g b))
        (heq ▸ ((min_le_right r _).trans (min_le_left g b)))
    have hbM : b = max r (max g b) :=
      le_antisymm (le_max_of_le_right (le_max_right g b))
        (heq ▸ ((min_le_right r _).trans (min_le_right g b)))
    unfold hsv_to_rgb
    rw [if_pos rfl, Prod.mk.injEq, Prod.mk.injEq]
    exact ⟨hrM.symm, hgM.symm, hbM.symm⟩
  · rw [if_neg heq, Prod.mk.injEq, Prod.mk.injEq] at hhsv
    obtain ⟨hh, hs, hv⟩ := hhsv
    subst hh hs hv
    have hMch : max r (max g b) = r ∨ max r (max g b) = g ∨ max r (max g b) = b := by
      rcases max_choice r (max g b) with h1 | h1
      · exact Or.inl h1
      · rcases max_choice g b with h2 | h2
        · exact Or.inr (Or.inl (h1.trans h2))
        · exact Or.inr (Or.inr (h1.trans h2))
    have hmch : min r (min g b) = r ∨ min r (min g b) = g ∨ min r (min g b) = b := by
      rcases min_choice r (min g b) with h1 | h1
      · exact Or.inl h1
      · rcases min_choice g b with h2 | h2
        · exact Or.inr (Or.inl (h1.trans h2))
        · exact Or.inr (Or.inr (h1.trans h2))
    have hmle : min r (min g b) ≤ max r (max g b) :=
      le_trans (min_le_left _ _) (le_max_left _ _)
    have hmM : min r (min g b) < max r (max g b) := lt_of_le_of_ne hmle heq
    have hm0 : 0 ≤ min r (min g b) := le_min hr (le_min hg hb)
    have hM0 : 0 < max r (max g b) := lt_of_le_of_lt hm0 hmM
    have hMne : max r (max g b) ≠ 0 := hM0.ne'
    have hd0 : 0 < max r (max g b) - min r (min g b) := sub_pos.mpr hmM
    have hsne : (max r (max g b) - min r (min g b)) / max r (max g b) ≠ 0 :=
      ne_of_gt (div_pos hd0 hM0)
    have hgle : g ≤ max r (max g b) := le_max_of_le_right (le_max_left g b)
    have hble : b ≤ max r (max g b) := le_max_of_le_right (le_max_right g b)
    have hrle : r ≤ max r (max g b) := le_max_left _ _
    have hmr : min r (min g b) ≤ r := min_le_left _ _
    have hmgg : min r (min g b) ≤ g := (min_le_right r _).trans (min_le_left g b)
    have hmbb : min r (min g b) ≤ b := (min_le_right r _).trans (min_le_right g b)
    set M := max r (max g b) with hMdef
    set m := min r (min g b) with hmdef
    clear_value M m
    by_cases hrM : r = M
    · rw [if_pos hrM]
      have hbr : b ≤ r := hrM ▸ hble
      have hgr : g ≤ r := hrM ▸ hgle
      by_cases hbg : b ≤ g
      · -- red is the max channel and green is at least blue
        have hmb : m = b := le_antisymm hmbb (by
          rcases hmch with h1 | h1 | h1 <;> rw [h1] <;> linarith)
        rw [hmb] at hd0 hsne ⊢
        have hdne : M - b ≠ 0 := hd0.ne'
        have h0eq : (M - b) / (M - b) - (M - g) / (M - b) = (g - b) / (M - b) := by
          ring
        rw [h0eq]
        by_cases hgM : g = M
        · -- exact boundary: hue lands on sector 1 with zero fraction
          have hgb2 : g - b = M - b := by rw [hgM]
          rw [hgb2, div_self hdne]
          norm_num
          rw [hsv_sector_eval _ _ _ hsne 1 (by norm_num) (by norm_num) (by norm_num)]
          norm_num [Prod.mk.injEq]
          refine ⟨hrM.symm, hgM.symm, ?_⟩
          field_simp
        · have hglt : g < M := lt_of_le_of_ne hgle hgM
          have hub : (g - b) / (M - b) < 1 := (div_lt_one hd0).mpr (by linarith)
          have hlb : 0 ≤ (g - b) / (M - b) := div_nonneg (by linarith) hd0.le
          have hfl : ⌊(g - b) / (M - b) / 6⌋ = 0 := by
            rw [Int.floor_eq_iff]
            constructor
            · push_cast
              linarith
            · push_cast
              linarith
          rw [hfl]
          rw [hsv_sector_eval _ _ _ hsne 0 (by norm_num) (by push_cast; linarith)
            (by push_cast; linarith)]
          norm_num [Prod.mk.injEq]
          refine ⟨hrM.symm, ?_, ?_⟩
          · field_simp
            ring
          · field_simp
      · -- red is the max channel and blue exceeds green: sector 5
        push_neg at hbg
        have hmg : m = g := le_antisymm hmgg (by
          rcases hmch with h1 | h1 | h1 <;> rw [h1] <;> linarith)
        rw [hmg] at hd0 hsne ⊢
        have hdne : M - g ≠ 0 := hd0.ne'
        have h0eq : (M - b) / (M - g) - (M - g) / (M - g) = (g - b) / (M - g) := by
          ring
        rw [h0eq]
        have hub : (g - b) / (M - g) < 0 := div_neg_of_neg_of_pos (by linarith) hd0
        have hlb : (-1 : ℚ) ≤ (g - b) / (M - g) := by
          rw [neg_le, ← neg_div]
          exact (div_le_one hd0).mpr (by linarith)
        have hfl : ⌊(g - b) / (M - g) / 6⌋ = -1 := by
          rw [Int.floor_eq_iff]
          constructor
          · push_cast
            linarith
          · push_cast
            linarith
        rw [hfl]
        rw [hsv_sector_eval _ _ _ hsne 5 (by norm_num) (by push_cast; linarith)
          (by push_cast; linarith)]
        norm_num [Prod.mk.injEq]
        refine ⟨hrM.symm, ?_, ?_⟩
        · field_simp
        · field_simp
          ring
    · rw [if_neg hrM]
      have hrlt : r < M := lt_of_le_of_ne hrle hrM
      by_cases hgM : g = M
      · rw [if_pos hgM]
        have hrg : r ≤ g := hgM ▸ hrle
        have hbg : b ≤ g := hgM ▸ hble
        have h0eq : 2 + (M - r) / (M - m) - (M - b) / (M - m) =
            2 + (b - r) / (M - m) := by ring
        rw [h0eq]
        by_cases hbr : b ≤ r
        · -- green is max and blue at most red: sector 1 or boundary 2
          have hmb : m = b := le_antisymm hmbb (by
            rcases hmch with h1 | h1 | h1 <;> rw [h1] <;> linarith)
          rw [hmb] at hd0 hsne ⊢
          have hdne : M - b ≠ 0 := hd0.ne'
          by_cases hrb : r = b
          · -- boundary: red equals blue equals the min, hue is exactly a third
            have hz : b - r = 0 := by rw [hrb]; ring
            rw [hz, zero_div]
            norm_num
            rw [hsv_sector_eval _ _ _ hsne 2 (by norm_num) (by norm_num) (by norm_num)]
            norm_num [Prod.mk.injEq]
            refine ⟨?_, hgM.symm, ?_⟩
            · rw [hrb]
              field_simp
            · field_simp
          · have hblt : b < r := lt_of_le_of_ne hbr (fun hc => hrb hc.symm)
            have hub : (b - r) / (M - b) < 0 := div_neg_of_neg_of_pos (by linarith) hd0
            have hlb : (-1 : ℚ) < (b - r) / (M - b) := by
              rw [neg_lt, ← neg_div]
              exact (div_lt_one hd0).mpr (by linarith)
            have hfl : ⌊(2 + (b - r) / (M - b)) / 6⌋ = 0 := by
              rw [Int.floor_eq_iff]
              constructor
              · push_cast
                linarith
              · push_cast
                linarith
            rw [hfl]
            rw [hsv_sector_eval _ _ _ hsne 1 (by norm_num) (by push_cast; linarith)
              (by push_cast; linarith)]
            norm_num [Prod.mk.injEq]
            refine ⟨?_, hgM.symm, ?_⟩
            · field_simp
              ring
            · field_simp
        · -- green is max and blue exceeds red: sector 2 or boundary 3
          push_neg at hbr
          have hmr2 : m = r := le_antisymm hmr (by
            rcases hmch with h1 | h1 | h1 <;> rw [h1] <;> linarith)
          rw [hmr2] at hd0 hsne ⊢
          have hdne : M - r ≠ 0 := hd0.ne'
          by_cases hbM : b = M
          · -- boundary: blue also equals the max, hue exactly one half
            have hbr2 : b - r = M - r := by rw [hbM]
            rw [hbr2, div_self hdne]
            norm_num
            rw [hsv_sector_eval _ _ _ hsne 3 (by norm_num) (by norm_num) (by norm_num)]
            norm_num [Prod.mk.injEq]
            refine ⟨?_, hgM.symm, hbM.symm⟩
            field_simp
          · have hblt : b < M := lt_of_le_of_ne hble hbM
            have hub : (b - r) / (M - r) < 1 := (div_lt_one hd0).mpr (by linarith)
            have hlb : 0 < (b - r) / (M - r) := div_pos (by linarith) hd0
            have hfl : ⌊(2 + (b - r) / (M - r)) / 6⌋ = 0 := by
              rw [Int.floor_eq_iff]
              constructor
              · push_cast
                linarith
              · push_cast
                linarith
            rw [hfl]
            rw [hsv_sector_eval _ _ _ hsne 2 (by norm_num) (by push_cast; linarith)
              (by push_cast; linarith)]
            norm_num [Prod.mk.injEq]
            refine ⟨?_, hgM.symm, ?_⟩
            · field_simp
            · field_simp
              ring
      · -- blue is the max channel
        rw [if_neg hgM]
        have hbM : b = M := by
          rcases hMch with h1 | h1 | h1
          · exact absurd h1.symm hrM
          · exact absurd h1.symm hgM
          · exact h1.symm
        have hglt : g < M := lt_of_le_of_ne hgle hgM
        have hrb : r ≤ b := hbM ▸ hrle
        have hgb : g ≤ b := hbM ▸ hgle
        have h0eq : 4 + (M - g) / (M - m) - (M - r) / (M - m) =
            4 + (r - g) / (M - m) := by ring
        rw [h0eq]
        by_cases hgr : g ≤ r
        · -- sector 4
          have hmg : m = g := le_antisymm hmgg (by
            rcases hmch with h1 | h1 | h1 <;> rw [h1] <;> linarith)
          rw [hmg] at hd0 hsne ⊢
          have hdne : M - g ≠ 0 := hd0.ne'
          have hub : (r - g) / (M - g) < 1 := (div_lt_one hd0).mpr (by linarith)
          have hlb : 0 ≤ (r - g) / (M - g) := div_nonneg (by linarith) hd0.le
          have hfl : ⌊(4 + (r - g) / (M - g)) / 6⌋ = 0 := by
            rw [Int.floor_eq_iff]
            constructor
            · push_cast
              linarith
            · push_cast
              linarith
          rw [hfl]
          rw [hsv_sector_eval _ _ _ hsne 4 (by norm_num) (by push_cast; linarith)
            (by push_cast; linarith)]
          norm_num [Prod.mk.injEq]
          refine ⟨?_, ?_, hbM.symm⟩
          · field_simp
            ring
          · field_simp
        · -- sector 3
          push_neg at hgr
          have hmr2 : m = r := le_antisymm hmr (by
            rcases hmch with h1 | h1 | h1 <;> rw [h1] <;> linarith)
          rw [hmr2] at hd0 hsne ⊢
          have hdne : M - r ≠ 0 := hd0.ne'
          have hub : (r - g) / (M - r) < 0 :=
            div_neg_of_neg_of_pos (by linarith) hd0
          have hlb : (-1 : ℚ) < (r - g) / (M - r) := by
            rw [neg_lt, ← neg_div]
            exact (div_lt_one hd0).mpr (by linarith)
          have hfl : ⌊(4 + (r - g) / (M - r)) / 6⌋ = 0 := by
            rw [Int.floor_eq_iff]
            constructor
            · push_cast
              linarith
            · push_cast
              linarith
          rw [hfl]
          rw [hsv_sector_eval _ _ _ hsne 3 (by norm_num) (by push_cast; linarith)
            (by push_cast; linarith)]
          norm_num [Prod.mk.injEq]
          refine ⟨?_, ?_, hbM.symm⟩
          · field_simp
          · field_simp
            ring

/-- The hue of rgb_to_hsv always lies in [0,1). -/
theorem rgb_to_hsv_hue_mem (r g b : ℚ) :
    0 ≤ (rgb_to_hsv r g b).1 ∧ (rgb_to_hsv r g b).1 < 1 := by
  simp only [rgb_to_hsv]
  split_ifs <;>
    first
      | exact ⟨sub_floor_nonneg _, sub_floor_lt_one _⟩
      | norm_num

/-- The adjusted hue difference is the shorter arc: at most half a turn in
absolute value, for hues in [0,1). -/
theorem hue_adjust_abs_le (h1 h2 : ℚ) (ha : 0 ≤ h1) (hb : h1 < 1)
    (hc : 0 ≤ h2) (hd : h2 < 1) :
    |hue_endpoint_adjust h1 h2 - h1| ≤ 1/2 := by
  unfold hue_endpoint_adjust
  split_ifs with hd1 hd2 <;> rw [abs_le] <;> constructor <;> linarith

/-- _interpolate_hue equals the unwrapped interpolation along the adjusted
(shorter-arc) difference, up to a whole turn of -1, 0 or +1. -/
theorem interpolate_hue_wrap (h1 h2 t : ℚ) :
    ∃ k : ℤ, (k = -1 ∨ k = 0 ∨ k = 1) ∧
      interpolate_hue h1 h2 t = h1 + (hue_endpoint_adjust h1 h2 - h1) * t + k := by
  simp only [interpolate_hue, hue_endpoint_adjust]
  split_ifs
  · exact ⟨1, by norm_num, by push_cast; ring⟩
  · exact ⟨-1, by norm_num, by push_cast; ring⟩
  · exact ⟨0, by norm_num, by push_cast; ring⟩
  · exact ⟨1, by norm_num, by push_cast; ring⟩
  · exact ⟨-1, by norm_num, by push_cast; ring⟩
  · exact ⟨0, by norm_num, by push_cast; ring⟩
  · exact ⟨1, by norm_num, by push_cast; ring⟩
  · exact ⟨-1, by norm_num, by push_cast; ring⟩
  · exact ⟨0, by norm_num, by push_cast; ring⟩

/-- The result of _interpolate_hue lies in [0,1] for hues in [0,1) and a
ratio in [0,1]. The upper endpoint 1 is attainable (see the counterexample
for the [0,1) claim), so the closed interval is tight. -/
theorem interpolate_hue_mem (h1 h2 t : ℚ) (ha : 0 ≤ h1) (hb : h1 < 1)
    (hc : 0 ≤ h2) (hd : h2 < 1) (ht0 : 0 ≤ t) (ht1 : t ≤ 1) :
    0 ≤ interpolate_hue h1 h2 t ∧ interpolate_hue h1 h2 t ≤ 1 := by
  simp only [interpolate_hue]
  by_cases hd1 : h2 - h1 > 1/2
  · rw [if_pos hd1]
    have hdl : -(1/2 : ℚ) ≤ h2 - 1 - h1 := by linarith
    have hdu : h2 - 1 - h1 ≤ 0 := by linarith
    have p1 : (-(1/2 : ℚ)) * t ≤ (h2 - 1 - h1) * t := mul_le_mul_of_nonneg_right hdl ht0
    have p2 : (h2 - 1 - h1) * t ≤ 0 := by nlinarith
    have p3 : -(1/2 : ℚ) ≤ (-(1/2 : ℚ)) * t := by nlinarith
    split_ifs with hw1 hw2 <;> constructor <;> linarith
  · rw [if_neg hd1]
    by_cases hd2 : h2 - h1 < -(1/2)
    · rw [if_pos hd2]
      have hdl : (0 : ℚ) ≤ h2 + 1 - h1 := by linarith
      have hdu : h2 + 1 - h1 ≤ 1/2 := by linarith
      have p1 : (0 : ℚ) ≤ (h2 + 1 - h1) * t := mul_nonneg hdl ht0
      have p2 : (h2 + 1 - h1) * t ≤ (1/2 : ℚ) * t := mul_le_mul_of_nonneg_right hdu ht0
      have p3 : (1/2 : ℚ) * t ≤ 1/2 := by nlinarith
      split_ifs with hw1 hw2 <;> constructor <;> linarith
    · rw [if_neg hd2]
      have hdl : -(1/2 : ℚ) ≤ h2 - h1 := by linarith
      have hdu : h2 - h1 ≤ 1/2 := by linarith
      have p1 : (-(1/2 : ℚ)) * t ≤ (h2 - h1) * t := mul_le_mul_of_nonneg_right hdl ht0
      have p2 : (h2 - h1) * t ≤ (1/2 : ℚ) * t := mul_le_mul_of_nonneg_right hdu ht0
      have p3 : (1/2 : ℚ) * t ≤ 1/2 := by nlinarith
      have p4 : -(1/2 : ℚ) ≤ (-(1/2 : ℚ)) * t := by nlinarith
      split_ifs with hw1 hw2 <;> constructor <;> linarith

/-- Hue 1.0 produces the same rgb as hue 0.0 (full turn): int(6.0) = 6 and
6 % 6 = 0 select sector 0 with zero fraction either way. -/
theorem hsv_to_rgb_one_eq_zero (s v : ℚ) : hsv_to_rgb 1 s v = hsv_to_rgb 0 s v := by
  unfold hsv_to_rgb
  split_ifs
  · rfl
  · norm_num [ratTrunc]

/-- _interpolate_hue at ratio 0 returns the first hue unchanged when it lies
in [0,1). -/
theorem interpolate_hue_zero (h1 h2 : ℚ) (ha : 0 ≤ h1) (hb : h1 < 1) :
    interpolate_hue h1 h2 0 = h1 := by
  simp only [interpolate_hue, mul_zero, add_zero]
  rw [if_neg (not_lt.mpr ha), if_neg (not_lt.mpr hb.le)]

/-- _interpolate_hue at ratio 1 returns the second hue, except that for
h2 = 0 approached from below it can return the equivalent value 1. -/
theorem interpolate_hue_one (h1 h2 : ℚ) (hb : h1 < 1)
    (hc : 0 ≤ h2) (hd : h2 < 1) :
    interpolate_hue h1 h2 1 = h2 ∨ (h2 = 0 ∧ interpolate_hue h1 h2 1 = 1) := by
  simp only [interpolate_hue]
  by_cases hd1 : h2 - h1 > 1/2
  · rw [if_pos hd1]
    have hlt : h1 + (h2 - 1 - h1) * 1 < 0 := by linarith
    rw [if_pos hlt]
    left
    ring
  · rw [if_neg hd1]
    by_cases hd2 : h2 - h1 < -(1/2)
    · rw [if_pos hd2]
      have hnn : ¬ (h1 + (h2 + 1 - h1) * 1 < 0) := not_lt.mpr (by linarith)
      rw [if_neg hnn]
      by_cases hz : h2 = 0
      · right
        refine ⟨hz, ?_⟩
        rw [if_neg (not_lt.mpr (by rw [hz]; linarith))]
        rw [hz]
        ring
      · left
        have hpos : 0 < h2 := lt_of_le_of_ne hc (Ne.symm hz)
        rw [if_pos (by linarith : h1 + (h2 + 1 - h1) * 1 > 1)]
        ring
    · rw [if_neg hd2]
      left
      rw [if_neg (not_lt.mpr (by linarith)), if_neg (not_lt.mpr (by linarith))]
      ring

/-- _interpolate_color at ratio 0 returns the first color exactly. -/
theorem interpolate_color_zero (c1 c2 : Color) (h1 : 0 ≤ c1.red)
    (h2 : 0 ≤ c1.green) (h3 : 0 ≤ c1.blue) :
    interpolate_color c1 c2 0 = c1 := by
  unfold interpolate_color
  rcases hv1 : rgb_to_hsv c1.red c1.green c1.blue with ⟨x1, y1, z1⟩
  rcases hv2 : rgb_to_hsv c2.red c2.green c2.blue with ⟨x2, y2, z2⟩
  have hx := rgb_to_hsv_hue_mem c1.red c1.green c1.blue
  rw [hv1] at hx
  dsimp only
  rw [interpolate_hue_zero x1 x2 hx.1 hx.2, mul_zero, add_zero, mul_zero, add_zero]
  rw [hsv_round_trip c1.red c1.green c1.blue x1 y1 z1 h1 h2 h3 hv1]

/-- _interpolate_color at ratio 1 returns the second color exactly. -/
theorem interpolate_color_one (c1 c2 : Color) (h1 : 0 ≤ c2.red)
    (h2 : 0 ≤ c2.green) (h3 : 0 ≤ c2.blue) :
    interpolate_color c1 c2 1 = c2 := by
  unfold interpolate_color
  rcases hv1 : rgb_to_hsv c1.red c1.green c1.blue with ⟨x1, y1, z1⟩
  rcases hv2 : rgb_to_hsv c2.red c2.green c2.blue with ⟨x2, y2, z2⟩
  have hx1 := rgb_to_hsv_hue_mem c1.red c1.green c1.blue
  rw [hv1] at hx1
  have hx2 := rgb_to_hsv_hue_mem c2.red c2.green c2.blue
  rw [hv2] at hx2
  dsimp only
  rw [show y1 + (y2 - y1) * 1 = y2 by ring, show z1 + (z2 - z1) * 1 = z2 by ring]
  rcases interpolate_hue_one x1 x2 hx1.2 hx2.1 hx2.2 with hh | ⟨hz, hh⟩
  · rw [hh, hsv_round_trip c2.red c2.green c2.blue x2 y2 z2 h1 h2 h3 hv2]
  · rw [hh, hsv_to_rgb_one_eq_zero, ← hz,
      hsv_round_trip c2.red c2.green c2.blue x2 y2 z2 h1 h2 h3 hv2]

theorem sort_stops_sorted (l : List ColorPoint) :
    (sort_stops l).Pairwise (fun a b => a.position ≤ b.position) :=
  List.sorted_insertionSort _ l

theorem sort_stops_perm (l : List ColorPoint) : List.Perm (sort_stops l) l :=
  List.perm_insertionSort _ l

/-- On a strictly position-sorted list of at least two nonnegative stops, the
gradient scan at the exact position of the k-th stop returns exactly that
stop's color. -/
theorem find_seg_at_stop (l : List ColorPoint) :
    ∀ (k : ℕ) (hk : k < l.length), 2 ≤ l.length →
    l.Pairwise (fun a b => a.position < b.position) →
    (∀ c ∈ l, ColorNonneg c.color) →
    find_seg ((l.get ⟨k, hk⟩).position) l = some ((l.get ⟨k, hk⟩).color) := by
  induction l with
  | nil => intro k hk
           exact absurd hk (by simp)
  | cons c1 tail ih =>
    intro k hk hlen hpw hnn
    rcases tail with _ | ⟨c2, rest⟩
    · simp at hlen
    · have hpw1 := List.pairwise_cons.mp hpw
      have hc12 : c1.position < c2.position := hpw1.1 c2 (List.mem_cons_self _ _)
      rcases k with _ | (_ | k)
      · -- the first stop: ratio 0
        simp only [List.get, find_seg]
        rw [if_pos ⟨le_rfl, hc12.le⟩, if_neg (sub_ne_zero.mpr hc12.ne'), sub_self,
          zero_div]
        rw [interpolate_color_zero c1.color c2.color
          (hnn c1 (List.mem_cons_self _ _)).1 (hnn c1 (List.mem_cons_self _ _)).2.1
          (hnn c1 (List.mem_cons_self _ _)).2.2]
      · -- the second stop: ratio 1 at the first segment
        simp only [List.get, find_seg]
        rw [if_pos ⟨hc12.le, le_rfl⟩, if_neg (sub_ne_zero.mpr hc12.ne'),
          div_self (sub_ne_zero.mpr hc12.ne')]
        have hc2m : c2 ∈ c1 :: c2 :: rest := by simp
        rw [interpolate_color_one c1.color c2.color (hnn c2 hc2m).1
          (hnn c2 hc2m).2.1 (hnn c2 hc2m).2.2]
      · -- deeper stops: the first segment test fails and the scan recurses
        have hk2 : k + 1 < (c2 :: rest).length := by
          simpa using Nat.lt_of_succ_lt_succ hk
        have hget : ((c1 :: c2 :: rest).get ⟨k + 2, hk⟩) =
            ((c2 :: rest).get ⟨k + 1, hk2⟩) := rfl
        rw [hget]
        have hmem : (c2 :: rest).get ⟨k + 1, hk2⟩ ∈ rest := by
          have : (c2 :: rest).get ⟨k + 1, hk2⟩ = rest.get ⟨k, by simpa using hk2⟩ := rfl
          rw [this]
          exact List.get_mem rest _ _
        have hpw2 := List.pairwise_cons.mp hpw1.2
        have hgt : c2.position < ((c2 :: rest).get ⟨k + 1, hk2⟩).position :=
          hpw2.1 _ hmem
        simp only [find_seg]
        rw [if_neg (by
          rintro ⟨-, hle⟩
          exact absurd hle (not_le.mpr hgt))]
        have hlen2 : 2 ≤ (c2 :: rest).length := by
          simp only [List.length_cons] at hk2 ⊢
          omega
        exact ih (k + 1) hk2 hlen2 hpw1.2
          (fun c hc => hnn c (List.mem_cons_of_mem _ hc))

theorem find_seg_at_stop_fin (l : List ColorPoint) (n : Fin l.length)
    (h2 : 2 ≤ l.length) (hpw : l.Pairwise (fun a b => a.position < b.position))
    (hnn : ∀ c ∈ l, ColorNonneg c.color) :
    find_seg ((l.get n).position) l = some ((l.get n).color) := by
  obtain ⟨k, hk⟩ := n
  exact find_seg_at_stop l k hk h2 hpw hnn

/-- The heart of stop exactness: a gradient palette whose stops carry
pairwise-distinct positions and nonnegative channels returns a stop's own
color when queried at that stop's exact position. -/
theorem gradient_stop_color (ps : List (String × Palette)) (name : String)
    (pal : Palette) (cp : ColorPoint) (hlk : ps.lookup name = some pal)
    (hty : pal.type = "gradient")
    (hdist : pal.colors.Pairwise (fun a b => a.position ≠ b.position))
    (hnn : ∀ c ∈ pal.colors, ColorNonneg c.color) (hmem : cp ∈ pal.colors) :
    get_color_at_position ps name cp.position = .ok (some cp.color) := by
  simp only [get_color_at_position, hlk]
  rw [hty]
  rw [if_neg (by decide : ¬("gradient" = "static")), if_pos rfl]
  have hsp := sort_stops_perm pal.colors
  have hmem2 : cp ∈ sort_stops pal.colors := hsp.mem_iff.mpr hmem
  have hdist2 : (sort_stops pal.colors).Pairwise (fun a b => a.position ≠ b.position) :=
    (hsp.pairwise_iff (fun {_ _} h => Ne.symm h)).mpr hdist
  have hnn2 : ∀ c ∈ sort_stops pal.colors, ColorNonneg c.color :=
    fun c hc => hnn c (hsp.mem_iff.mp hc)
  have hstrict : (sort_stops pal.colors).Pairwise
      (fun a b => a.position < b.position) :=
    ((sort_stops_sorted pal.colors).and hdist2).imp
      (fun h => lt_of_le_of_ne h.1 h.2)
  rcases hl : sort_stops pal.colors with _ | ⟨c, _ | ⟨c2, rest⟩⟩
  · rw [hl] at hmem2
    simp at hmem2
  · rw [hl] at hmem2
    have hcp : cp = c := by simpa using hmem2
    subst hcp
    simp only [find_seg]
    show Except.ok (some (if cp.position > cp.position then cp.color else cp.color)) =
      Except.ok (some cp.color)
    rw [if_neg (show ¬ cp.position > cp.position from lt_irrefl _)]
  · rw [hl] at hmem2 hstrict hnn2
    obtain ⟨n, hget⟩ := List.mem_iff_get.mp hmem2
    rw [← hget]
    rw [find_seg_at_stop_fin _ n (by simp) hstrict hnn2]

/-- A registered nonempty gradient palette yields a color at every
position. -/
theorem get_color_gradient_total (ps : List (String × Palette)) (name : String)
    (pal : Palette) (pos : ℚ) (hlk : ps.lookup name = some pal)
    (hty : pal.type = "gradient") (hne : pal.colors ≠ []) :
    ∃ c, get_color_at_position ps name pos = .ok (some c) := by
  simp only [get_color_at_position, hlk]
  rw [hty, if_neg (by decide : ¬("gradient" = "static")), if_pos rfl]
  cases hfs : find_seg pos (sort_stops pal.colors) with
  | some c => exact ⟨c, rfl⟩
  | none =>
    rcases hl : sort_stops pal.colors with _ | ⟨c, tail⟩
    · exfalso
      apply hne
      have hperm := sort_stops_perm pal.colors
      rw [hl] at hperm
      exact (List.Perm.nil_eq hperm).symm
    · rw [List.getLast?_eq_getLast _ (by simp)]
      exact ⟨_, rfl⟩

/-- A registered nonempty static palette yields a color at every
position. -/
theorem get_color_static_total (ps : List (String × Palette)) (name : String)
    (pal : Palette) (pos : ℚ) (hlk : ps.lookup name = some pal)
    (hty : pal.type = "static") (hne : pal.colors ≠ []) :
    ∃ c, get_color_at_position ps name pos = .ok (some c) := by
  simp only [get_color_at_position, hlk]
  rw [hty, if_pos rfl]
  rcases hl : pal.colors with _ | ⟨c, tail⟩
  · exact absurd hl hne
  · simp only [min_by_dist]
    exact ⟨_, rfl⟩

theorem rainbow_lookup : default_palettes.lookup "rainbow" = some rainbow_palette := by
  simp [default_palettes, List.lookup]

theorem fire_lookup : default_palettes.lookup "fire" = some fire_palette := by
  simp [default_palettes, List.lookup]

/-- The hardcoded rainbow lookup of RainbowEffect always yields a color. -/
theorem get_color_strict_rainbow_ok (pos : ℚ) :
    ∃ c, get_color_strict "rainbow" pos = .ok c := by
  obtain ⟨c, hc⟩ := get_color_gradient_total default_palettes "rainbow"
    rainbow_palette pos rainbow_lookup rfl (by simp [rainbow_palette])
  exact ⟨c, by simp only [get_color_strict, hc]⟩

theorem rainbow_light_rgb_eq_val (n : ℕ) (cfg : EffectConfig) (elapsed : ℚ)
    (i : ℕ) : rainbow_light_rgb n cfg elapsed i =
      .ok (rainbow_rgb_val n cfg elapsed i) := by
  obtain ⟨c, hc⟩ := get_color_strict_rainbow_ok
    (if cfg.reverse then 100 - py_mod (((i : ℚ) / (n : ℚ)) * 100 +
        elapsed * ((cfg.speed : ℚ) / 50) * 20) 100
      else py_mod (((i : ℚ) / (n : ℚ)) * 100 +
        elapsed * ((cfg.speed : ℚ) / 50) * 20) 100)
  simp only [rainbow_light_rgb, rainbow_rgb_val, hc]

/-- The rgb value is the color at the claimed palette position, scaled. -/
theorem rainbow_rgb_val_spec (n : ℕ) (cfg : EffectConfig) (elapsed : ℚ) (i : ℕ) :
    ∃ c, get_color_strict "rainbow"
        (if cfg.reverse then 100 - py_mod (((i : ℚ) / (n : ℚ)) * 100 +
            elapsed * ((cfg.speed : ℚ) / 50) * 20) 100
          else py_mod (((i : ℚ) / (n : ℚ)) * 100 +
            elapsed * ((cfg.speed : ℚ) / 50) * 20) 100) = .ok c ∧
      rainbow_rgb_val n cfg elapsed i =
        [scale_channel (c.red * 255) cfg.intensity,
         scale_channel (c.green * 255) cfg.intensity,
         scale_channel (c.blue * 255) cfg.intensity] := by
  obtain ⟨c, hc⟩ := get_color_strict_rainbow_ok
    (if cfg.reverse then 100 - py_mod (((i : ℚ) / (n : ℚ)) * 100 +
        elapsed * ((cfg.speed : ℚ) / 50) * 20) 100
      else py_mod (((i : ℚ) / (n : ℚ)) * 100 +
        elapsed * ((cfg.speed : ℚ) / 50) * 20) 100)
  exact ⟨c, hc, by simp only [rainbow_rgb_val, rainbow_light_rgb, hc]⟩

theorem getD_eq_getElem_of_lt (l : List String) (j : ℕ) (h : j < l.length) :
    l.getD j "" = l[j] := by
  simp [List.getD_eq_getElem?_getD, List.getElem?_eq_getElem h]

theorem nodup_getD_ne (l : List String) (hnd : l.Nodup) {i j : ℕ}
    (hi : i < l.length) (hj : j < l.length) (hne : i ≠ j) :
    l.getD i "" ≠ l.getD j "" := by
  rw [getD_eq_getElem_of_lt l i hi, getD_eq_getElem_of_lt l j hj]
  intro hcon
  have hinj := List.nodup_iff_injective_get.mp hnd
  have := @hinj ⟨i, hi⟩ ⟨j, hj⟩ (by simpa using hcon)
  exact hne (by simpa using congrArg Fin.val this)

theorem upsert_fresh {β : Type} (m : List (String × β)) (k : String) (v : β)
    (h : ∀ p ∈ m, p.1 ≠ k) : upsert m k v = m ++ [(k, v)] := by
  have hany : m.any (fun p => p.1 == k) = false := by
    rw [List.any_eq_false]
    intro p hp
    simpa using h p hp
  simp [upsert, hany]

theorem upsert_present {β : Type} (m : List (String × β)) (k : String) (v : β)
    (h : ∃ p ∈ m, p.1 = k) :
    upsert m k v = m.map (fun p => if p.1 = k then (k, v) else p) := by
  have hany : m.any (fun p => p.1 == k) = true := by
    rw [List.any_eq_true]
    obtain ⟨p, hp, he⟩ := h
    exact ⟨p, hp, by simpa using he⟩
  simp [upsert, hany]

theorem rainbow_expected_step (lights : List String) (hnd : lights.Nodup)
    (cfg : EffectConfig) (elapsed : ℚ) (m : ℕ) (hm : m < lights.length) :
    (if cfg.mirror = true ∧ lights.length / 2 ≤ m then
        upsert (upsert (rainbow_expected lights cfg elapsed m)
            (lights.getD m "") (rainbow_rgb_val lights.length cfg elapsed m))
          (lights.getD (lights.length - 1 - m) "")
          (rainbow_rgb_val lights.length cfg elapsed m)
      else upsert (rainbow_expected lights cfg elapsed m) (lights.getD m "")
        (rainbow_rgb_val lights.length cfg elapsed m)) =
      rainbow_expected lights cfg elapsed (m + 1) := by
  have hfresh : upsert (rainbow_expected lights cfg elapsed m)
      (lights.getD m "") (rainbow_rgb_val lights.length cfg elapsed m) =
      rainbow_expected lights cfg elapsed m ++
        [(lights.getD m "", rainbow_rgb_val lights.length cfg elapsed m)] := by
    apply upsert_fresh
    intro p hp
    simp only [rainbow_expected, List.mem_map, List.mem_range] at hp
    obtain ⟨j, hj, rfl⟩ := hp
    exact nodup_getD_ne lights hnd (lt_trans hj hm) hm (Nat.ne_of_lt hj)
  have hmain : rainbow_expected lights cfg elapsed (m + 1) =
      (List.range m).map (fun j =>
        (lights.getD j "",
         rainbow_rgb_val lights.length cfg elapsed
           (mirror_src lights.length (m + 1) j cfg.mirror))) ++
      [(lights.getD m "",
        rainbow_rgb_val lights.length cfg elapsed
          (mirror_src lights.length (m + 1) m cfg.mirror))] := by
    simp [rainbow_expected, List.range_succ]
  split_ifs with hcond
  · obtain ⟨hmir, hge⟩ := hcond
    have hle : lights.length - 1 - m ≤ m := by omega
    rw [hfresh]
    by_cases heqm : lights.length - 1 - m = m
    · rw [heqm]
      rw [upsert_present _ _ _
        ⟨_, List.mem_append_right _ (List.mem_singleton_self _), rfl⟩]
      rw [List.map_append, hmain, rainbow_expected, List.map_map]
      congr 1
      · apply List.map_congr_left
        intro j hj
        rw [List.mem_range] at hj
        simp only [Function.comp]
        rw [if_neg (nodup_getD_ne lights hnd (lt_trans hj hm) hm (Nat.ne_of_lt hj))]
        have hsrc : mirror_src lights.length m j cfg.mirror =
            mirror_src lights.length (m + 1) j cfg.mirror := by
          simp only [mirror_src, hmir, true_and]
          split_ifs <;> first | rfl | omega
        rw [hsrc]
      · simp only [List.map_cons, List.map_nil, if_pos rfl, List.cons.injEq,
          and_true, Prod.mk.injEq, true_and]
        have hsrc : mirror_src lights.length (m + 1) m cfg.mirror = m := by
          simp only [mirror_src, hmir, true_and]
          split_ifs with h1
          · omega
          · rfl
        rw [hsrc]
        simp
    · have hlt : lights.length - 1 - m < m := lt_of_le_of_ne hle heqm
      rw [upsert_present _ _ _
        ⟨(lights.getD (lights.length - 1 - m) "",
          rainbow_rgb_val lights.length cfg elapsed
            (mirror_src lights.length m (lights.length - 1 - m) cfg.mirror)),
         List.mem_append_left _ (by
          simp only [rainbow_expected, List.mem_map, List.mem_range]
          exact ⟨lights.length - 1 - m, hlt, rfl⟩), rfl⟩]
      rw [List.map_append, hmain, rainbow_expected, List.map_map]
      congr 1
      · apply List.map_congr_left
        intro j hj
        rw [List.mem_range] at hj
        simp only [Function.comp]
        by_cases hjm : j = lights.length - 1 - m
        · subst hjm
          rw [if_pos rfl]
          have hsrc : mirror_src lights.length (m + 1)
              (lights.length - 1 - m) cfg.mirror = m := by
            simp only [mirror_src, hmir, true_and]
            rw [if_pos (by omega)]
            omega
          rw [hsrc]
        · rw [if_neg (nodup_getD_ne lights hnd (lt_trans hj hm)
            (by omega) hjm)]
          have hsrc : mirror_src lights.length m j cfg.mirror =
              mirror_src lights.length (m + 1) j cfg.mirror := by
            simp only [mirror_src, hmir, true_and]
            split_ifs <;> first | rfl | omega
          rw [hsrc]
      · simp only [List.map_cons, List.map_nil]
        rw [if_neg (nodup_getD_ne lights hnd hm (by omega)
          (fun hc => heqm hc.symm))]
        have hsrc : mirror_src lights.length (m + 1) m cfg.mirror = m := by
          simp only [mirror_src, hmir, true_and]
          split_ifs with h1
          · omega
          · rfl
        rw [hsrc]
  · rw [hfresh, hmain]
    congr 1
    · conv_lhs => rw [rainbow_expected]
      apply List.map_congr_left
      intro j hj
      rw [List.mem_range] at hj
      rcases hmir : cfg.mirror with _ | _
      · simp [mirror_src, hmir]
      · rw [hmir] at hcond
        simp only [true_and] at hcond
        push_neg at hcond
        have hsrc : mirror_src lights.length m j true =
            mirror_src lights.length (m + 1) j true := by
          simp only [mirror_src, true_and]
          split_ifs <;> first | rfl | omega
        rw [hsrc]
    · rcases hmir : cfg.mirror with _ | _
      · simp [mirror_src, hmir]
      · rw [hmir] at hcond
        simp only [true_and] at hcond
        push_neg at hcond
        have hsrc : mirror_src lights.length (m + 1) m true = m := by
          simp only [mirror_src, true_and]
          rw [if_neg (by omega)]
        rw [hsrc]

theorem rainbow_loop_eq (lights : List String) (hnd : lights.Nodup)
    (cfg : EffectConfig) (elapsed : ℚ) :
    ∀ (suf : List String) (m : ℕ), lights.drop m = suf → m ≤ lights.length →
    rainbow_loop lights lights.length cfg elapsed m suf
      (rainbow_expected lights cfg elapsed m) =
      .ok (rainbow_expected lights cfg elapsed lights.length) := by
  intro suf
  induction suf with
  | nil =>
    intro m hdrop hle
    have hlen : m = lights.length := by
      have h2 := congrArg List.length hdrop
      simp only [List.length_drop, List.length_nil] at h2
      omega
    subst hlen
    rfl
  | cons lid rest ih =>
    intro m hdrop hle
    have hm : m < lights.length := by
      have h2 := congrArg List.length hdrop
      simp only [List.length_drop, List.length_cons] at h2
      omega
    have hd := List.drop_eq_getElem_cons hm
    rw [hdrop] at hd
    injection hd with hd1 hd2
    simp only [rainbow_loop]
    rw [rainbow_light_rgb_eq_val]
    dsimp only
    have hlid : lid = lights.getD m "" := by
      rw [getD_eq_getElem_of_lt lights m hm]
      exact hd1
    rw [hlid, rainbow_expected_step lights hnd cfg elapsed m hm]
    exact ih (m + 1) hd2.symm (by omega)

/-- RainbowEffect.generate_frame never fails and produces the expected
per-light dictionary. -/
theorem rainbow_frame_eq (lights : List String) (hnd : lights.Nodup)
    (cfg : EffectConfig) (elapsed : ℚ) :
    rainbow_frame lights cfg elapsed =
      .ok (rainbow_expected lights cfg elapsed lights.length) := by
  have h0 : rainbow_expected lights cfg elapsed 0 = [] := by
    simp [rainbow_expected]
  have h := rainbow_loop_eq lights hnd cfg elapsed lights 0 (by simp) (by simp)
  rw [h0] at h
  exact h

theorem lookup_map_range' (f : ℕ → String) (g : ℕ → List ℤ) :
    ∀ (n s j : ℕ), s ≤ j → j < s + n →
    (∀ i1 i2, s ≤ i1 → i1 < s + n → s ≤ i2 → i2 < s + n → f i1 = f i2 → i1 = i2) →
    ((List.range' s n).map (fun i => (f i, g i))).lookup (f j) = some (g j) := by
  intro n
  induction n with
  | zero => intro s j h1 h2
            omega
  | succ n ih =>
    intro s j h1 h2 hinj
    rw [List.range'_succ, List.map_cons]
    by_cases hjs : j = s
    · subst hjs
      simp [List.lookup]
    · have hne : f j ≠ f s := by
        intro hc
        exact hjs (hinj j s (by omega) (by omega) (by omega) (by omega) hc)
      rw [List.lookup_cons]
      simp only [beq_false_of_ne hne]
      exact ih (s + 1) j (by omega) (by omega)
        (fun i1 i2 a b c d he => hinj i1 i2 (by omega) (by omega) (by omega) (by omega) he)

/-- Looking up light j in the finished rainbow frame dictionary. -/
theorem rainbow_expected_lookup (lights : List String) (hnd : lights.Nodup)
    (cfg : EffectConfig) (elapsed : ℚ) (j : ℕ) (hj : j < lights.length) :
    (rainbow_expected lights cfg elapsed lights.length).lookup (lights.getD j "") =
      some (rainbow_rgb_val lights.length cfg elapsed
        (mirror_src lights.length lights.length j cfg.mirror)) := by
  have h := lookup_map_range' (fun i => lights.getD i "")
    (fun i => rainbow_rgb_val lights.length cfg elapsed
      (mirror_src lights.length lights.length i cfg.mirror))
    lights.length 0 j (by omega) (by omega)
    (fun i1 i2 a b c d he => by
      by_contra hne
      exact nodup_getD_ne lights hnd (by omega) (by omega) hne he)
  rw [← List.range_eq_range'] at h
  simpa [rainbow_expected] using h

theorem get_color_strict_ok (name : String) (pal : Palette) (pos : ℚ)
    (hlk : default_palettes.lookup name = some pal)
    (hty : pal.type = "static" ∨ pal.type = "gradient") (hne : pal.colors ≠ []) :
    ∃ c, get_color_strict name pos = .ok c := by
  rcases hty with hty | hty
  · obtain ⟨c, hc⟩ := get_color_static_total default_palettes name pal pos hlk hty hne
    exact ⟨c, by simp only [get_color_strict, hc]⟩
  · obtain ⟨c, hc⟩ := get_color_gradient_total default_palettes name pal pos hlk hty hne
    exact ⟨c, by simp only [get_color_strict, hc]⟩

theorem wipe_expected_succ (lights : List String) (cfg : EffectConfig)
    (active : ℤ) (m : ℕ) :
    wipe_expected lights cfg active (m + 1) = wipe_expected lights cfg active m ++
      [(lights.getD m "",
        if (wipe_idx lights.length cfg.reverse m : ℤ) < active
        then wipe_rgb_val lights.length cfg (wipe_idx lights.length cfg.reverse m)
        else [0, 0, 0])] := by
  simp [wipe_expected, List.range_succ]

theorem color_wipe_loop_eq (lights : List String) (hnd : lights.Nodup)
    (cfg : EffectConfig) (active : ℤ)
    (htot : ∀ i : ℕ, ∃ c, get_color_strict cfg.palette_name
      (((i : ℚ) / (lights.length : ℚ)) * 100) = .ok c) :
    ∀ (suf : List String) (m : ℕ), lights.drop m = suf → m ≤ lights.length →
    color_wipe_loop lights.length cfg active m suf
      (wipe_expected lights cfg active m) =
      .ok (wipe_expected lights cfg active lights.length) := by
  intro suf
  induction suf with
  | nil =>
    intro m hdrop hle
    have hlen : m = lights.length := by
      have h2 := congrArg List.length hdrop
      simp only [List.length_drop, List.length_nil] at h2
      omega
    subst hlen
    rfl
  | cons lid rest ih =>
    intro m hdrop hle
    have hm : m < lights.length := by
      have h2 := congrArg List.length hdrop
      simp only [List.length_drop, List.length_cons] at h2
      omega
    have hd := List.drop_eq_getElem_cons hm
    rw [hdrop] at hd
    injection hd with hd1 hd2
    have hlid : lid = lights.getD m "" := by
      rw [getD_eq_getElem_of_lt lights m hm]
      exact hd1
    have hfresh : ∀ v, upsert (wipe_expected lights cfg active m)
        (lights.getD m "") v = wipe_expected lights cfg active m ++
        [(lights.getD m "", v)] := by
      intro v
      apply upsert_fresh
      intro p hp
      simp only [wipe_expected, List.mem_map, List.mem_range] at hp
      obtain ⟨j, hj, rfl⟩ := hp
      exact nodup_getD_ne lights hnd (lt_trans hj hm) hm (Nat.ne_of_lt hj)
    simp only [color_wipe_loop]
    by_cases hlit : ((if cfg.reverse = true then lights.length - 1 - m else m : ℕ) : ℤ) < active
    · rw [if_pos hlit]
      obtain ⟨c, hc⟩ := htot (if cfg.reverse = true then lights.length - 1 - m else m)
      rw [hc]
      dsimp only
      rw [hlid, hfresh]
      have hval : [scale_channel (c.red * 255) cfg.intensity,
          scale_channel (c.green * 255) cfg.intensity,
          scale_channel (c.blue * 255) cfg.intensity] =
          wipe_rgb_val lights.length cfg (wipe_idx lights.length cfg.reverse m) := by
        simp only [wipe_rgb_val, wipe_idx]
        rw [show (if cfg.reverse = true then lights.length - 1 - m else m) =
          (if cfg.reverse then lights.length - 1 - m else m) from rfl] at hc
        rw [hc]
      rw [hval, show wipe_expected lights cfg active m ++
        [(lights.getD m "", wipe_rgb_val lights.length cfg
          (wipe_idx lights.length cfg.reverse m))] =
        wipe_expected lights cfg active (m + 1) from by
          rw [wipe_expected_succ, if_pos (by simpa [wipe_idx] using hlit)]]
      exact ih (m + 1) hd2.symm (by omega)
    · rw [if_neg hlit]
      rw [hlid, hfresh]
      rw [show wipe_expected lights cfg active m ++ [(lights.getD m "", [0, 0, 0])] =
        wipe_expected lights cfg active (m + 1) from by
          rw [wipe_expected_succ, if_neg (by simpa [wipe_idx] using hlit)]]
      exact ih (m + 1) hd2.symm (by omega)

/-- The claimed active-light count: floor the raw product, then take the
nonnegative remainder mod n+1. The code computes int((x) % (n+1)); both
agree. -/
theorem wipe_active_eq (x : ℚ) (k : ℤ) (hk : 0 < k) :
    ratTrunc (py_mod x (k : ℚ)) = ⌊x⌋ % k := by
  have hkq : (0:ℚ) < (k:ℚ) := by exact_mod_cast hk
  have h1 : 0 ≤ py_mod x (k:ℚ) := py_mod_nonneg x _ hkq
  have h2 : py_mod x (k:ℚ) < k := py_mod_lt x _ hkq
  rw [ratTrunc_of_nonneg h1]
  have h3 : ⌊py_mod x (k:ℚ)⌋ = ⌊x⌋ - k * ⌊x / (k:ℚ)⌋ := by
    unfold py_mod
    rw [show ((k:ℚ) * ⌊x / (k:ℚ)⌋) = ((k * ⌊x / (k:ℚ)⌋ : ℤ) : ℚ) by push_cast; ring]
    exact Int.floor_sub_int x _
  have h4 : 0 ≤ ⌊x⌋ - k * ⌊x / (k:ℚ)⌋ := by
    rw [← h3]
    exact Int.floor_nonneg.mpr h1
  have h5 : ⌊x⌋ - k * ⌊x / (k:ℚ)⌋ < k := by
    rw [← h3]
    exact Int.floor_lt.mpr (by exact_mod_cast h2)
  rw [h3]
  calc ⌊x⌋ - k * ⌊x / (k:ℚ)⌋ = (⌊x⌋ - k * ⌊x / (k:ℚ)⌋) % k :=
        (Int.emod_eq_of_lt h4 h5).symm
    _ = ⌊x⌋ % k := by
        rw [show ⌊x⌋ - k * ⌊x / (k:ℚ)⌋ = ⌊x⌋ + (-⌊x / (k:ℚ)⌋) * k by ring]
        exact Int.add_mul_emod_self

theorem wipe_expected_lookup (lights : List String) (hnd : lights.Nodup)
    (cfg : EffectConfig) (active : ℤ) (j : ℕ) (hj : j < lights.length) :
    (wipe_expected lights cfg active lights.length).lookup (lights.getD j "") =
      some (if (wipe_idx lights.length cfg.reverse j : ℤ) < active
        then wipe_rgb_val lights.length cfg (wipe_idx lights.length cfg.reverse j)
        else [0, 0, 0]) := by
  have h := lookup_map_range' (fun i => lights.getD i "")
    (fun i => if (wipe_idx lights.length cfg.reverse i : ℤ) < active
      then wipe_rgb_val lights.length cfg (wipe_idx lights.length cfg.reverse i)
      else [0, 0, 0])
    lights.length 0 j (by omega) (by omega)
    (fun i1 i2 a b c d he => by
      by_contra hne
      exact nodup_getD_ne lights hnd (by omega) (by omega) hne he)
  rw [← List.range_eq_range'] at h
  simpa [wipe_expected] using h

/-- ColorWipeEffect.generate_frame never fails for a registered nonempty
static or gradient palette and produces the expected dictionary. -/
theorem color_wipe_frame_eq (lights : List String) (hnd : lights.Nodup)
    (cfg : EffectConfig) (elapsed : ℚ) (pal : Palette)
    (hlk : default_palettes.lookup cfg.palette_name = some pal)
    (hty : pal.type = "static" ∨ pal.type = "gradient") (hne : pal.colors ≠ []) :
    color_wipe_frame lights cfg elapsed = .ok (wipe_expected lights cfg
      (ratTrunc (py_mod (elapsed * ((cfg.speed : ℚ) / 50) * 2)
        ((lights.length : ℚ) + 1))) lights.length) := by
  have htot : ∀ i : ℕ, ∃ c, get_color_strict cfg.palette_name
      (((i : ℚ) / (lights.length : ℚ)) * 100) = .ok c :=
    fun i => get_color_strict_ok _ pal _ hlk hty hne
  simp only [color_wipe_frame, hlk]
  have h := color_wipe_loop_eq lights hnd cfg
    (ratTrunc (py_mod (elapsed * ((cfg.speed : ℚ) / 50) * 2)
      ((lights.length : ℚ) + 1))) htot lights 0 (by simp) (by simp)
  have h0 : wipe_expected lights cfg
      (ratTrunc (py_mod (elapsed * ((cfg.speed : ℚ) / 50) * 2)
        ((lights.length : ℚ) + 1))) 0 = [] := by
    simp [wipe_expected]
  rw [h0] at h
  exact h

/-- List.lookup success names an actual pair of the list. -/
theorem lookup_mem {β : Type} (l : List (String × β)) (k : String) (v : β)
    (h : l.lookup k = some v) : (k, v) ∈ l := by
  induction l with
  | nil => simp [List.lookup] at h
  | cons p rest ih =>
    by_cases hbe : k = p.1
    · have hb : (k == p.1) = true := by simpa using hbe
      simp only [List.lookup, hb] at h
      have hv : p.2 = v := Option.some.inj h
      exact (List.mem_cons).mpr (Or.inl (by rw [hbe, ← hv]))
    · have hb : (k == p.1) = false := by simpa using hbe
      simp only [List.lookup, hb] at h
      exact List.mem_cons_of_mem _ (ih h)

theorem lookup_eq_none_of {β : Type} (l : List (String × β)) (k : String)
    (h : ∀ p ∈ l, p.1 ≠ k) : l.lookup k = none := by
  induction l with
  | nil => rfl
  | cons p rest ih =>
    have hb : (k == p.1) = false := by
      simpa using (h p (List.mem_cons_self _ _)).symm
    simp only [List.lookup, hb]
    exact ih (fun q hq => h q (List.mem_cons_of_mem _ hq))

theorem lookup_none_forall {β : Type} (l : List (String × β)) (k : String)
    (h : l.lookup k = none) : ∀ p ∈ l, p.1 ≠ k := by
  induction l with
  | nil => simp
  | cons p rest ih =>
    intro q hq
    rcases List.mem_cons.mp hq with hq1 | hq1
    · subst hq1
      intro hc
      have hb : (k == q.1) = true := by simpa using hc.symm
      simp only [List.lookup, hb] at h
      exact Option.noConfusion h
    · by_cases hbe : k = p.1
      · have hb : (k == p.1) = true := by simpa using hbe
        simp only [List.lookup, hb] at h
        exact Option.noConfusion h
      · have hb : (k == p.1) = false := by simpa using hbe
        simp only [List.lookup, hb] at h
        exact ih h q hq1

theorem lookup_append_last {β : Type} (l : List (String × β)) (k : String)
    (v : β) (h : ∀ p ∈ l, p.1 ≠ k) : (l ++ [(k, v)]).lookup k = some v := by
  induction l with
  | nil => simp [List.lookup]
  | cons p rest ih =>
    have hb : (k == p.1) = false := by
      simpa using (h p (List.mem_cons_self _ _)).symm
    rw [List.cons_append]
    simp only [List.lookup, hb]
    exact ih (fun q hq => h q (List.mem_cons_of_mem _ hq))

theorem engine_inv_init : EngineInv init_engine := by
  constructor <;> simp [init_engine]

theorem get?_append_left_ev (l l2 : List Ev) (i : ℕ) (h : i < l.length) :
    (l ++ l2).get? i = l.get? i := List.get?_append h

theorem get?_some_lt (l : List Ev) (i : ℕ) (e : Ev) (h : l.get? i = some e) :
    i < l.length := by
  by_contra hc
  rw [List.get?_eq_none.mpr (by omega)] at h
  exact Option.noConfusion h

theorem get?_mem_ev (l : List Ev) (i : ℕ) (e : Ev) (h : l.get? i = some e) :
    e ∈ l := List.get?_mem h

theorem mem_get?_ev (l : List Ev) (e : Ev) (h : e ∈ l) :
    ∃ i, l.get? i = some e := List.mem_iff_get?.mp h

/-- Appending events preserves old-index reads, and reads of appended
events decompose. -/
theorem get?_append_cases (l l2 : List Ev) (i : ℕ) (e : Ev)
    (h : (l ++ l2).get? i = some e) :
    (i < l.length ∧ l.get? i = some e) ∨
    (l.length ≤ i ∧ l2.get? (i - l.length) = some e) := by
  by_cases hi : i < l.length
  · left
    exact ⟨hi, by rw [← List.get?_append hi]; exact h⟩
  · right
    refine ⟨by omega, ?_⟩
    rw [← List.get?_append_right (by omega)]
    exact h

theorem get?_singleton_cases (e : Ev) (i : ℕ) (e2 : Ev)
    (h : [e].get? i = some e2) : i = 0 ∧ e = e2 := by
  match i with
  | 0 => exact ⟨rfl, Option.some.inj h⟩
  | n + 1 => simp at h

theorem appended_event (l : List Ev) (e : Ev) (i : ℕ) (e2 : Ev)
    (h : (l ++ [e]).get? i = some e2) :
    (i < l.length ∧ l.get? i = some e2) ∨ (i = l.length ∧ e = e2) := by
  rcases get?_append_cases _ _ _ _ h with ⟨h1, h2⟩ | ⟨h1, h2⟩
  · exact Or.inl ⟨h1, h2⟩
  · obtain ⟨h3, h4⟩ := get?_singleton_cases _ _ _ h2
    exact Or.inr ⟨by omega, h4⟩

theorem get?_triple_cases (a b c : Ev) (i : ℕ) (e : Ev)
    (h : [a, b, c].get? i = some e) :
    (i = 0 ∧ e = a) ∨ (i = 1 ∧ e = b) ∨ (i = 2 ∧ e = c) := by
  match i with
  | 0 => exact Or.inl ⟨rfl, (Option.some.inj h).symm⟩
  | 1 => exact Or.inr (Or.inl ⟨rfl, (Option.some.inj h).symm⟩)
  | 2 => exact Or.inr (Or.inr ⟨rfl, (Option.some.inj h).symm⟩)
  | n + 3 => simp at h

theorem appended_triple (l : List Ev) (a b c : Ev) (i : ℕ) (e : Ev)
    (h : (l ++ [a, b, c]).get? i = some e) :
    (i < l.length ∧ l.get? i = some e) ∨
    (i = l.length ∧ e = a) ∨ (i = l.length + 1 ∧ e = b) ∨
    (i = l.length + 2 ∧ e = c) := by
  rcases get?_append_cases _ _ _ _ h with ⟨h1, h2⟩ | ⟨h1, h2⟩
  · exact Or.inl ⟨h1, h2⟩
  · rcases get?_triple_cases _ _ _ _ _ h2 with ⟨h3, h4⟩ | ⟨h3, h4⟩ | ⟨h3, h4⟩
    · exact Or.inr (Or.inl ⟨by omega, h4⟩)
    · exact Or.inr (Or.inr (Or.inl ⟨by omega, h4⟩))
    · exact Or.inr (Or.inr (Or.inr ⟨by omega, h4⟩))

theorem engine_inv_frame (st : EngineState) (s : String) (re : RunningEffect)
    (hlk : st.running_effects.lookup s = some re)
    (hnc : re.task_id ∉ st.cancelled) (hinv : EngineInv st) :
    EngineInv { st with trace := st.trace ++ [.frame re.task_id] } := by
  constructor
  · exact hinv.keys_nodup
  · intro t ht
    rcases List.mem_append.mp ht with h1 | h1
    · exact hinv.cancel_in_trace t h1
    · simp at h1
  · intro t s2 ht
    rcases List.mem_append.mp ht with h1 | h1
    · exact hinv.spawn_lt t s2 h1
    · simp at h1
  · intro p hp
    exact List.mem_append_left _ (hinv.run_spawned p hp)
  · intro i l t hi hl
    rcases appended_event _ _ _ _ hi with ⟨hi1, hi2⟩ | ⟨hi1, hi2⟩
    · rcases appended_event _ _ _ _ hl with ⟨hl1, hl2⟩ | ⟨hl1, hl2⟩
      · exact hinv.no_frame_after_cancel i l t hi2 hl2
      · exfalso
        apply hnc
        have ht2 : re.task_id = t := by
          injection hl2
        rw [ht2]
        exact hinv.cancel_in_trace t (get?_mem_ev _ _ _ hi2)
    · exact absurd hi2 (by simp)
  · intro k t hk
    rcases appended_event _ _ _ _ hk with ⟨hk1, hk2⟩ | ⟨hk1, hk2⟩
    · obtain ⟨j, s2, hj, hjs⟩ := hinv.frame_has_spawn k t hk2
      exact ⟨j, s2, hj,
        by rw [get?_append_left_ev _ _ _ (get?_some_lt _ _ _ hjs)]; exact hjs⟩
    · have ht2 : re.task_id = t := by injection hk2
      have hsp : Ev.spawn re.task_id s ∈ st.trace :=
        hinv.run_spawned (s, re) (lookup_mem _ _ _ hlk)
      obtain ⟨j, hj⟩ := mem_get?_ev _ _ hsp
      have hjlt := get?_some_lt _ _ _ hj
      refine ⟨j, s, by omega, ?_⟩
      rw [get?_append_left_ev _ _ _ hjlt, ← ht2]
      exact hj
  · intro j j2 t s2 s3 hj hj2
    rcases appended_event _ _ _ _ hj with ⟨h1, h2⟩ | ⟨h1, h2⟩
    · rcases appended_event _ _ _ _ hj2 with ⟨h3, h4⟩ | ⟨h3, h4⟩
      · exact hinv.spawn_unique j j2 t s2 s3 h2 h4
      · exact absurd h4 (by simp)
    · exact absurd h2 (by simp)

theorem engine_inv_stop (st : EngineState) (s : String) (hinv : EngineInv st) :
    EngineInv (stop_effect st s) := by
  unfold stop_effect
  cases hlk : st.running_effects.lookup s with
  | none => exact hinv
  | some re =>
    constructor
    · exact hinv.keys_nodup.sublist ((List.filter_sublist _).map Prod.fst)
    · intro t ht
      rcases List.mem_append.mp ht with h1 | h1
      · exact List.mem_cons_of_mem _ (hinv.cancel_in_trace t h1)
      · rcases List.mem_cons.mp h1 with h2 | h2
        · injection h2 with h3
          rw [h3]
          exact List.mem_cons_self _ _
        · rcases List.mem_cons.mp h2 with h3 | h3
          · exact absurd h3 (by simp)
          · simp at h3
    · intro t s2 ht
      rcases List.mem_append.mp ht with h1 | h1
      · exact hinv.spawn_lt t s2 h1
      · simp at h1
    · intro p hp
      exact List.mem_append_left _
        (hinv.run_spawned p (List.mem_of_mem_filter hp))
    · intro i l t hi hl
      rcases appended_triple _ _ _ _ _ _ hl with ⟨hl1, hl2⟩ | ⟨hl1, hl2⟩ |
        ⟨hl1, hl2⟩ | ⟨hl1, hl2⟩
      · rcases appended_triple _ _ _ _ _ _ hi with ⟨hi1, hi2⟩ | ⟨hi1, hi2⟩ |
          ⟨hi1, hi2⟩ | ⟨hi1, hi2⟩
        · exact hinv.no_frame_after_cancel i l t hi2 hl2
        · omega
        · exact absurd hi2 (by simp)
        · exact absurd hi2 (by simp)
      · exact absurd hl2 (by simp)
      · exact absurd hl2 (by simp)
      · exact absurd hl2 (by simp)
    · intro k t hk
      rcases appended_triple _ _ _ _ _ _ hk with ⟨hk1, hk2⟩ | ⟨hk1, hk2⟩ |
        ⟨hk1, hk2⟩ | ⟨hk1, hk2⟩
      · obtain ⟨j, s2, hj, hjs⟩ := hinv.frame_has_spawn k t hk2
        exact ⟨j, s2, hj,
          by rw [get?_append_left_ev _ _ _ (get?_some_lt _ _ _ hjs)]; exact hjs⟩
      · exact absurd hk2 (by simp)
      · exact absurd hk2 (by simp)
      · exact absurd hk2 (by simp)
    · intro j j2 t s2 s3 hj hj2
      rcases appended_triple _ _ _ _ _ _ hj with ⟨h1, h2⟩ | ⟨h1, h2⟩ |
        ⟨h1, h2⟩ | ⟨h1, h2⟩
      · rcases appended_triple _ _ _ _ _ _ hj2 with ⟨h3, h4⟩ | ⟨h3, h4⟩ |
          ⟨h3, h4⟩ | ⟨h3, h4⟩
        · exact hinv.spawn_unique j j2 t s2 s3 h2 h4
        · exact absurd h4 (by simp)
        · exact absurd h4 (by simp)
        · exact absurd h4 (by simp)
      · exact absurd h2 (by simp)
      · exact absurd h2 (by simp)
      · exact absurd h2 (by simp)

theorem stop_effect_lookup_none (st : EngineState) (s : String) :
    (stop_effect st s).running_effects.lookup s = none := by
  unfold stop_effect
  cases hlk : st.running_effects.lookup s with
  | none => exact hlk
  | some re =>
    apply lookup_eq_none_of
    intro p hp
    have := List.of_mem_filter hp
    simpa using this

theorem stop_effect_next (st : EngineState) (s : String) :
    (stop_effect st s).next_task = st.next_task := by
  unfold stop_effect
  cases st.running_effects.lookup s <;> rfl

theorem engine_inv_start (sequences : List String) (st : EngineState)
    (s e : String) (cfg : EffectConfig) (hinv : EngineInv st) :
    EngineInv (start_effect sequences st s e cfg).1 := by
  have hinv1 : EngineInv (stop_effect st s) := engine_inv_stop st s hinv
  unfold start_effect
  by_cases h1 : ¬ sequences.contains s
  · rw [if_pos h1]
    exact hinv1
  · rw [if_neg h1]
    by_cases h2 : ¬ engine_effects.contains e
    · rw [if_pos h2]
      exact hinv1
    · rw [if_neg h2]
      dsimp only
      have hkeys : ∀ p ∈ (stop_effect st s).running_effects, p.1 ≠ s :=
        lookup_none_forall _ _ (stop_effect_lookup_none st s)
      have hup : upsert (stop_effect st s).running_effects s
          ⟨e, cfg, (stop_effect st s).next_task⟩ =
          (stop_effect st s).running_effects ++
            [(s, ⟨e, cfg, (stop_effect st s).next_task⟩)] :=
        upsert_fresh _ _ _ hkeys
      constructor
      · simp only [hup, List.map_append]
        rw [List.nodup_append]
        refine ⟨hinv1.keys_nodup, by simp, ?_⟩
        intro a ha hb
        simp only [List.map_cons, List.map_nil, List.mem_singleton] at hb
        subst hb
        obtain ⟨p, hp, hps⟩ := List.mem_map.mp ha
        exact hkeys p hp hps
      · intro t ht
        rcases List.mem_append.mp ht with h3 | h3
        · exact hinv1.cancel_in_trace t h3
        · simp at h3
      · intro t s2 ht
        show t < (stop_effect st s).next_task + 1
        rcases List.mem_append.mp ht with h3 | h3
        · exact lt_trans (hinv1.spawn_lt t s2 h3) (by omega)
        · simp only [List.mem_singleton] at h3
          injection h3 with h4 h5
          omega
      · intro p hp
        rw [hup] at hp
        rcases List.mem_append.mp hp with h3 | h3
        · exact List.mem_append_left _ (hinv1.run_spawned p h3)
        · simp only [List.mem_singleton] at h3
          subst h3
          exact List.mem_append_right _ (by simp)
      · intro i l t hi hl
        rcases appended_event _ _ _ _ hi with ⟨hi1, hi2⟩ | ⟨hi1, hi2⟩
        · rcases appended_event _ _ _ _ hl with ⟨hl1, hl2⟩ | ⟨hl1, hl2⟩
          · exact hinv1.no_frame_after_cancel i l t hi2 hl2
          · exact absurd hl2 (by simp)
        · exact absurd hi2 (by simp)
      · intro k t hk
        rcases appended_event _ _ _ _ hk with ⟨hk1, hk2⟩ | ⟨hk1, hk2⟩
        · obtain ⟨j, s2, hj, hjs⟩ := hinv1.frame_has_spawn k t hk2
          exact ⟨j, s2, hj,
            by rw [get?_append_left_ev _ _ _ (get?_some_lt _ _ _ hjs)]; exact hjs⟩
        · exact absurd hk2 (by simp)
      · intro j j2 t s2 s3 hj hj2
        rcases appended_event _ _ _ _ hj with ⟨h3, h4⟩ | ⟨h3, h4⟩
        · rcases appended_event _ _ _ _ hj2 with ⟨h5, h6⟩ | ⟨h5, h6⟩
          · exact hinv1.spawn_unique j j2 t s2 s3 h4 h6
          · exfalso
            have ht : t = (stop_effect st s).next_task := by
              injection h6 with ha hb
              exact ha.symm
            have := hinv1.spawn_lt t s2 (get?_mem_ev _ _ _ h4)
            omega
        · rcases appended_event _ _ _ _ hj2 with ⟨h5, h6⟩ | ⟨h5, h6⟩
          · exfalso
            have ht : t = (stop_effect st s).next_task := by
              injection h4 with ha hb
              exact ha.symm
            have := hinv1.spawn_lt t s3 (get?_mem_ev _ _ _ h6)
            omega
          · omega

theorem engine_inv_step (sequences : List String) (st st2 : EngineState)
    (hstep : EngineStep sequences st st2) (hinv : EngineInv st) :
    EngineInv st2 := by
  cases hstep with
  | frame s re hlk hnc => exact engine_inv_frame st s re hlk hnc hinv
  | service_start s e cfg => exact engine_inv_start sequences st s e cfg hinv
  | service_stop s => exact engine_inv_stop st s hinv

theorem engine_inv_reach (sequences : List String) (st : EngineState)
    (hreach : EngineReach sequences st) : EngineInv st := by
  induction hreach with
  | refl => exact engine_inv_init
  | tail hr hstep ih => exact engine_inv_step sequences _ _ hstep ih

theorem start_effect_success (sequences : List String) (st : EngineState)
    (s e : String) (cfg : EffectConfig) (hs : sequences.contains s = true)
    (he : engine_effects.contains e = true) :
    (start_effect sequences st s e cfg).2 = .ok () ∧
    (start_effect sequences st s e cfg).1.running_effects.lookup s =
      some ⟨e, cfg, (stop_effect st s).next_task⟩ := by
  unfold start_effect
  rw [if_neg (by rw [hs]; simp), if_neg (by rw [he]; simp)]
  refine ⟨rfl, ?_⟩
  show (upsert (stop_effect st s).running_effects s
    ⟨e, cfg, (stop_effect st s).next_task⟩).lookup s = _
  rw [upsert_fresh _ _ _ (lookup_none_forall _ _ (stop_effect_lookup_none st s))]
  exact lookup_append_last _ _ _
    (lookup_none_forall _ _ (stop_effect_lookup_none st s))

theorem start_effect_unknown_effect (sequences : List String)
    (st : EngineState) (s e : String) (cfg : EffectConfig) (re : RunningEffect)
    (hlk : st.running_effects.lookup s = some re)
    (hs : sequences.contains s = true)
    (he : engine_effects.contains e = false) :
    (start_effect sequences st s e cfg).2 = .error "Effect not found" ∧
    (start_effect sequences st s e cfg).1.running_effects.lookup s = none ∧
    (start_effect sequences st s e cfg).1.trace =
      st.trace ++ [.cancel re.task_id, .task_exit re.task_id, .seq_off s] := by
  unfold start_effect
  rw [if_neg (by rw [hs]; simp), if_pos (by rw [he]; simp)]
  refine ⟨rfl, stop_effect_lookup_none st s, ?_⟩
  show (stop_effect st s).trace = _
  unfold stop_effect
  rw [hlk]

theorem fetch_all_error {α : Type} (gc gs : String → Except String α) :
    ∀ (ids : List String),
    (∃ lid ∈ ids, (∃ e, gc lid = .error e) ∨ (∃ e, gs lid = .error e)) →
    ∃ e, fetch_all gc gs ids = .error e := by
  intro ids
  induction ids with
  | nil =>
    rintro ⟨lid, h, -⟩
    simp at h
  | cons lid rest ih =>
    rintro ⟨l2, hmem, hfail⟩
    rcases List.mem_cons.mp hmem with rfl | hmem2
    · rcases hfail with ⟨e, he⟩ | ⟨e, he⟩
      · exact ⟨e, by simp [fetch_all, he]⟩
      · cases hc : gc l2 with
        | error e2 => exact ⟨e2, by simp [fetch_all, hc]⟩
        | ok c1 => exact ⟨e, by simp [fetch_all, hc, he]⟩
    · obtain ⟨e, hrest⟩ := ih ⟨l2, hmem2, hfail⟩
      cases hc : gc lid with
      | error e2 => exact ⟨e2, by simp [fetch_all, hc]⟩
      | ok c1 =>
        cases hs2 : gs lid with
        | error e2 => exact ⟨e2, by simp [fetch_all, hc, hs2]⟩
        | ok c2 => exact ⟨e, by simp [fetch_all, hc, hs2, hrest]⟩

theorem fetch_all_ok {α : Type} (gc gs : String → Except String α) :
    ∀ (ids : List String) (data : List (String × α × α)),
    fetch_all gc gs ids = .ok data →
    ∀ lid ∈ ids, (∃ c, gc lid = .ok c) ∧ (∃ c, gs lid = .ok c) := by
  intro ids
  induction ids with
  | nil =>
    intro data h lid hm
    simp at hm
  | cons l2 rest ih =>
    intro data h lid hm
    cases hc : gc l2 with
    | error e => simp [fetch_all, hc] at h
    | ok c1 =>
      cases hs2 : gs l2 with
      | error e => simp [fetch_all, hc, hs2] at h
      | ok c2 =>
        cases hr : fetch_all gc gs rest with
        | error e => simp [fetch_all, hc, hs2, hr] at h
        | ok tail =>
          rcases List.mem_cons.mp hm with rfl | hm2
          · exact ⟨⟨c1, hc⟩, ⟨c2, hs2⟩⟩
          · exact ih tail hr lid hm2

/-- C1: the spec says colorAt is total for every registered non-empty
palette, dynamic palettes (the builtin "fire") being interpolated like
gradients. The code's get_color_at_position has no branch for type
"dynamic": for the registered three-stop palette "fire" it falls off the
end of the function and returns None at position 50 (in [0,100]),
contradicting both the spec and the function's own `-> Color` annotation
and docstring. -/
theorem get_color_fire_returns_none :
    default_palettes.lookup "fire" = some fire_palette ∧
    fire_palette.type = "dynamic" ∧ fire_palette.colors.length = 3 ∧
    ((0:ℚ) ≤ 50 ∧ (50:ℚ) ≤ 100) ∧
    get_color_at_position default_palettes "fire" 50 = .ok none := by
  refine ⟨fire_lookup, rfl, rfl, by norm_num, ?_⟩
  norm_num +decide [get_color_at_position, default_palettes, fire_palette,
    List.lookup]

/-- C3 counterexample: the claim says the result of _interpolate_hue is
wrapped back into the half-open interval [0,1); at h1 = 0.95, h2 = 0.05 and
ratio 0.5 (all inside the claimed domain) the code returns exactly 1,
which is outside [0,1). -/
theorem interpolate_hue_returns_one :
    (0:ℚ) ≤ 19/20 ∧ (19/20:ℚ) < 1 ∧ (0:ℚ) ≤ 1/20 ∧ (1/20:ℚ) < 1 ∧
    (0:ℚ) ≤ 1/2 ∧ (1/2:ℚ) ≤ 1 ∧
    interpolate_hue (19/20) (1/20) (1/2) = 1 ∧
    ¬ interpolate_hue (19/20) (1/20) (1/2) < 1 := by
  norm_num [interpolate_hue]

/-- C3 (amended): for hues in [0,1) and a ratio in [0,1], _interpolate_hue
wraps the far endpoint by a whole turn whenever the raw difference exceeds
half a turn (the adjusted difference is the shorter arc, at most half a
turn in absolute value), interpolates linearly along it, and wraps the
result by a whole turn back into the closed interval [0,1] — the value 1.0
(equal to 0.0 mod 1) is attainable; in particular hues 0.05 and 0.95 at
ratio 0.5 give exactly 0.0. -/
theorem interpolate_hue_spec (h1 h2 t : ℚ) (ha : 0 ≤ h1) (hb : h1 < 1)
    (hc : 0 ≤ h2) (hd : h2 < 1) (ht0 : 0 ≤ t) (ht1 : t ≤ 1) :
    |hue_endpoint_adjust h1 h2 - h1| ≤ 1/2 ∧
    (∃ k : ℤ, (k = -1 ∨ k = 0 ∨ k = 1) ∧
      interpolate_hue h1 h2 t = h1 + (hue_endpoint_adjust h1 h2 - h1) * t + k) ∧
    0 ≤ interpolate_hue h1 h2 t ∧ interpolate_hue h1 h2 t ≤ 1 ∧
    interpolate_hue (1/20) (19/20) (1/2) = 0 :=
  ⟨hue_adjust_abs_le h1 h2 ha hb hc hd, interpolate_hue_wrap h1 h2 t,
   (interpolate_hue_mem h1 h2 t ha hb hc hd ht0 ht1).1,
   (interpolate_hue_mem h1 h2 t ha hb hc hd ht0 ht1).2,
   by norm_num [interpolate_hue]⟩

/-- Witness for C3 at h1 = 1/4, h2 = 3/4, ratio 1/2. -/
theorem interpolate_hue_spec_witness :
    |hue_endpoint_adjust (1/4) (3/4) - 1/4| ≤ 1/2 ∧
    (∃ k : ℤ, (k = -1 ∨ k = 0 ∨ k = 1) ∧
      interpolate_hue (1/4) (3/4) (1/2) =
        1/4 + (hue_endpoint_adjust (1/4) (3/4) - 1/4) * (1/2) + k) ∧
    0 ≤ interpolate_hue (1/4) (3/4) (1/2) ∧
    interpolate_hue (1/4) (3/4) (1/2) ≤ 1 ∧
    interpolate_hue (1/20) (19/20) (1/2) = 0 :=
  interpolate_hue_spec (1/4) (3/4) (1/2) (by norm_num) (by norm_num)
    (by norm_num) (by norm_num) (by norm_num) (by norm_num)

/-- C4 counterexample: the claim quantifies over every stop of every
gradient palette, but with two stops sharing position 50 the zero-length
segment branch returns the first stop's color, so querying at the second
stop's exact position yields red, not that stop's blue. -/
theorem gradient_duplicate_stop_not_exact :
    dup_palette.type = "gradient" ∧
    (⟨⟨0, 0, 1⟩, 50⟩ : ColorPoint) ∈ dup_palette.colors ∧
    get_color_at_position [("dup", dup_palette)] "dup" 50 =
      .ok (some ⟨1, 0, 0⟩) ∧
    (⟨1, 0, 0⟩ : Color) ≠ ⟨0, 0, 1⟩ := by
  refine ⟨rfl, by simp [dup_palette], ?_, by simp⟩
  norm_num +decide [get_color_at_position, dup_palette, List.lookup,
    sort_stops, List.insertionSort, List.orderedInsert, find_seg]

/-- C4 (amended): for every registered gradient palette whose stops have
pairwise-distinct positions and in-range color channels, querying at a
stop's exact position returns that stop's color exactly (no interpolation
drift); in particular the builtin rainbow palette returns pure red at
position 0 and CSS green exactly at the stop position 50. -/
theorem gradient_stop_exact (ps : List (String × Palette)) (name : String)
    (pal : Palette) (cp : ColorPoint) (hlk : ps.lookup name = some pal)
    (hty : pal.type = "gradient")
    (hdist : pal.colors.Pairwise (fun a b => a.position ≠ b.position))
    (hnn : ∀ c ∈ pal.colors, ColorNonneg c.color) (hmem : cp ∈ pal.colors) :
    get_color_at_position ps name cp.position = .ok (some cp.color) ∧
    get_color_at_position default_palettes "rainbow" 0 = .ok (some ⟨1, 0, 0⟩) ∧
    get_color_at_position default_palettes "rainbow" 50 =
      .ok (some ⟨0, 128/255, 0⟩) :=
  ⟨gradient_stop_color ps name pal cp hlk hty hdist hnn hmem,
   by norm_num +decide [get_color_at_position, default_palettes,
     rainbow_palette, List.lookup, sort_stops, List.insertionSort,
     List.orderedInsert, find_seg, interpolate_color, interpolate_hue,
     rgb_to_hsv, hsv_to_rgb, ratTrunc],
   by norm_num +decide [get_color_at_position, default_palettes,
     rainbow_palette, List.lookup, sort_stops, List.insertionSort,
     List.orderedInsert, find_seg, interpolate_color, interpolate_hue,
     rgb_to_hsv, hsv_to_rgb, ratTrunc]⟩

/-- Witness for C4 at the orange stop of the builtin rainbow palette. -/
theorem gradient_stop_exact_witness :
    get_color_at_position default_palettes "rainbow" (166/10) =
      .ok (some ⟨1, 165/255, 0⟩) ∧
    get_color_at_position default_palettes "rainbow" 0 = .ok (some ⟨1, 0, 0⟩) ∧
    get_color_at_position default_palettes "rainbow" 50 =
      .ok (some ⟨0, 128/255, 0⟩) :=
  gradient_stop_exact default_palettes "rainbow" rainbow_palette
    ⟨⟨1, 165/255, 0⟩, 166/10⟩ rainbow_lookup rfl
    (by norm_num [rainbow_palette, List.pairwise_cons])
    (by norm_num [rainbow_palette, ColorNonneg, List.forall_mem_cons])
    (by simp [rainbow_palette])

/-- C5: RainbowEffect.generate_frame always succeeds on a sequence of
distinct lights, every light i whose entry is not later overwritten by
mirroring (mirror off, or i >= N//2) shows the hardcoded rainbow palette
color at position ((i/N)*100 + elapsed*(speed/50)*20) mod 100 (reflected
to 100 - position under reverse), each channel scaled by intensity/100
with int() truncation; with mirror on, light N-1-i carries the same update
as light i for every i >= N//2; and for N=4, speed=50, elapsed=0 the four
lights sit at palette positions 0 (red), 25, 50 (green), 75. -/
theorem rainbow_frame_spec (lights : List String) (cfg : EffectConfig)
    (elapsed : ℚ) (hnd : lights.Nodup) :
    (∃ updates, rainbow_frame lights cfg elapsed = .ok updates ∧
      ∀ i : ℕ, i < lights.length →
        ((cfg.mirror = false ∨ lights.length / 2 ≤ i →
          ∃ c, get_color_strict "rainbow"
              (if cfg.reverse then 100 -
                  py_mod (((i : ℚ) / (lights.length : ℚ)) * 100 +
                    elapsed * ((cfg.speed : ℚ) / 50) * 20) 100
                else py_mod (((i : ℚ) / (lights.length : ℚ)) * 100 +
                  elapsed * ((cfg.speed : ℚ) / 50) * 20) 100) = .ok c ∧
            updates.lookup (lights.getD i "") =
              some [scale_channel (c.red * 255) cfg.intensity,
                scale_channel (c.green * 255) cfg.intensity,
                scale_channel (c.blue * 255) cfg.intensity]) ∧
        (cfg.mirror = true → lights.length / 2 ≤ i →
          updates.lookup (lights.getD (lights.length - 1 - i) "") =
            updates.lookup (lights.getD i "")))) ∧
    py_mod (((0 : ℚ) / 4) * 100 + 0 * ((50 : ℚ) / 50) * 20) 100 = 0 ∧
    py_mod (((1 : ℚ) / 4) * 100 + 0 * ((50 : ℚ) / 50) * 20) 100 = 25 ∧
    py_mod (((2 : ℚ) / 4) * 100 + 0 * ((50 : ℚ) / 50) * 20) 100 = 50 ∧
    py_mod (((3 : ℚ) / 4) * 100 + 0 * ((50 : ℚ) / 50) * 20) 100 = 75 ∧
    get_color_strict "rainbow" 0 = .ok ⟨1, 0, 0⟩ ∧
    get_color_strict "rainbow" 50 = .ok ⟨0, 128/255, 0⟩ := by
  refine ⟨⟨rainbow_expected lights cfg elapsed lights.length,
    rainbow_frame_eq lights hnd cfg elapsed, ?_⟩,
    by norm_num [py_mod], by norm_num [py_mod], by norm_num [py_mod],
    by norm_num [py_mod], ?_, ?_⟩
  · intro i hi
    constructor
    · intro hcond
      have hms : mirror_src lights.length lights.length i cfg.mirror = i := by
        rcases hcond with hm | hge
        · simp [mirror_src, hm]
        · unfold mirror_src
          split_ifs with h1
          · obtain ⟨-, h2, h3⟩ := h1
            omega
          · rfl
      have hlk := rainbow_expected_lookup lights hnd cfg elapsed i hi
      rw [hms] at hlk
      obtain ⟨c, hc1, hc2⟩ := rainbow_rgb_val_spec lights.length cfg elapsed i
      exact ⟨c, hc1, by rw [hlk, hc2]⟩
    · intro hmir hge
      have h1n : lights.length - 1 - i < lights.length := by omega
      have hlk1 := rainbow_expected_lookup lights hnd cfg elapsed
        (lights.length - 1 - i) h1n
      have hlk2 := rainbow_expected_lookup lights hnd cfg elapsed i hi
      have hms1 : mirror_src lights.length lights.length
          (lights.length - 1 - i) cfg.mirror = i := by
        unfold mirror_src
        split_ifs with h1
        · omega
        · exfalso
          exact h1 ⟨hmir, by omega, by omega⟩
      have hms2 : mirror_src lights.length lights.length i cfg.mirror = i := by
        unfold mirror_src
        split_ifs with h1
        · obtain ⟨-, h2, h3⟩ := h1
          omega
        · rfl
      rw [hms1] at hlk1
      rw [hms2] at hlk2
      rw [hlk1, hlk2]
  · norm_num +decide [get_color_strict, get_color_at_position,
      default_palettes, rainbow_palette, List.lookup, sort_stops,
      List.insertionSort, List.orderedInsert, find_seg, interpolate_color,
      interpolate_hue, rgb_to_hsv, hsv_to_rgb, ratTrunc]
  · norm_num +decide [get_color_strict, get_color_at_position,
      default_palettes, rainbow_palette, List.lookup, sort_stops,
      List.insertionSort, List.orderedInsert, find_seg, interpolate_color,
      interpolate_hue, rgb_to_hsv, hsv_to_rgb, ratTrunc]

/-- Witness for C5: four distinct lights, default config, elapsed 0. -/
theorem rainbow_frame_spec_witness :
    (∃ updates, rainbow_frame ["a", "b", "c", "d"]
        ⟨50, 100, "rainbow", false, false⟩ 0 = .ok updates ∧
      ∀ i : ℕ, i < (["a", "b", "c", "d"] : List String).length →
        (((⟨50, 100, "rainbow", false, false⟩ : EffectConfig).mirror = false ∨
          (["a", "b", "c", "d"] : List String).length / 2 ≤ i →
          ∃ c, get_color_strict "rainbow"
              (if (⟨50, 100, "rainbow", false, false⟩ : EffectConfig).reverse
                then 100 - py_mod (((i : ℚ) /
                      ((["a", "b", "c", "d"] : List String).length : ℚ)) * 100 +
                    0 * (((⟨50, 100, "rainbow", false, false⟩ :
                      EffectConfig).speed : ℚ) / 50) * 20) 100
                else py_mod (((i : ℚ) /
                      ((["a", "b", "c", "d"] : List String).length : ℚ)) * 100 +
                  0 * (((⟨50, 100, "rainbow", false, false⟩ :
                    EffectConfig).speed : ℚ) / 50) * 20) 100) = .ok c ∧
            updates.lookup ((["a", "b", "c", "d"] : List String).getD i "") =
              some [scale_channel (c.red * 255) 100,
                scale_channel (c.green * 255) 100,
                scale_channel (c.blue * 255) 100]) ∧
        ((⟨50, 100, "rainbow", false, false⟩ : EffectConfig).mirror = true →
          (["a", "b", "c", "d"] : List String).length / 2 ≤ i →
          updates.lookup ((["a", "b", "c", "d"] : List String).getD
              ((["a", "b", "c", "d"] : List String).length - 1 - i) "") =
            updates.lookup ((["a", "b", "c", "d"] : List String).getD i "")))) ∧
    py_mod (((0 : ℚ) / 4) * 100 + 0 * ((50 : ℚ) / 50) * 20) 100 = 0 ∧
    py_mod (((1 : ℚ) / 4) * 100 + 0 * ((50 : ℚ) / 50) * 20) 100 = 25 ∧
    py_mod (((2 : ℚ) / 4) * 100 + 0 * ((50 : ℚ) / 50) * 20) 100 = 50 ∧
    py_mod (((3 : ℚ) / 4) * 100 + 0 * ((50 : ℚ) / 50) * 20) 100 = 75 ∧
    get_color_strict "rainbow" 0 = .ok ⟨1, 0, 0⟩ ∧
    get_color_strict "rainbow" 50 = .ok ⟨0, 128/255, 0⟩ :=
  rainbow_frame_spec ["a", "b", "c", "d"] ⟨50, 100, "rainbow", false, false⟩ 0
    (by decide)

/-- C6 counterexample: the claim quantifies over every config, but
ColorWipeEffect reads config.palette_name: with the registered builtin
palette "fire" the first lit light's color comes back None and the
attribute access raises (AttributeError), and with an unregistered name
line 77's dict subscript raises KeyError — no frame of lit/off lights is
produced. -/
theorem color_wipe_crashes_on_palette :
    color_wipe_frame ["a"] ⟨50, 100, "fire", false, false⟩ (1/2) =
      .error "AttributeError" ∧
    color_wipe_frame ["a"] ⟨50, 100, "nope", false, false⟩ (1/2) =
      .error "KeyError" := by
  constructor
  · norm_num +decide [color_wipe_frame, color_wipe_loop, get_color_strict,
      get_color_at_position, default_palettes, fire_palette, rainbow_palette,
      List.lookup, ratTrunc, py_mod, upsert]
  · norm_num +decide [color_wipe_frame, default_palettes, fire_palette,
      rainbow_palette, List.lookup, ratTrunc, py_mod]

/-- C6 (amended): restricted to configs whose palette_name is registered
with static or gradient type and a non-empty stop list,
ColorWipeEffect.generate_frame succeeds and lights exactly the first
activeCount = floor(elapsed*(speed/50)*2) mod (N+1) lights: index i
(reversed first when reverse is set) gets the palette color at (i/N)*100
scaled by intensity/100 when i < activeCount and [0,0,0] otherwise; for
N=5, speed=50, elapsed=1.0 the active count is 2. -/
theorem color_wipe_frame_spec (lights : List String) (cfg : EffectConfig)
    (elapsed : ℚ) (pal : Palette) (hnd : lights.Nodup)
    (hlk : default_palettes.lookup cfg.palette_name = some pal)
    (hty : pal.type = "static" ∨ pal.type = "gradient")
    (hne : pal.colors ≠ []) :
    (∃ updates, color_wipe_frame lights cfg elapsed = .ok updates ∧
      ∀ j : ℕ, j < lights.length →
        (((wipe_idx lights.length cfg.reverse j : ℤ) <
            ⌊elapsed * ((cfg.speed : ℚ) / 50) * 2⌋ % ((lights.length : ℤ) + 1) →
          ∃ c, get_color_strict cfg.palette_name
              (((wipe_idx lights.length cfg.reverse j : ℚ) /
                (lights.length : ℚ)) * 100) = .ok c ∧
            updates.lookup (lights.getD j "") =
              some [scale_channel (c.red * 255) cfg.intensity,
                scale_channel (c.green * 255) cfg.intensity,
                scale_channel (c.blue * 255) cfg.intensity]) ∧
         (¬ (wipe_idx lights.length cfg.reverse j : ℤ) <
            ⌊elapsed * ((cfg.speed : ℚ) / 50) * 2⌋ % ((lights.length : ℤ) + 1) →
          updates.lookup (lights.getD j "") = some [0, 0, 0]))) ∧
    ⌊(1 : ℚ) * ((50 : ℚ) / 50) * 2⌋ % ((5 : ℤ) + 1) = 2 := by
  have h0 : (0 : ℤ) < (lights.length : ℤ) + 1 := by omega
  have hact := wipe_active_eq (elapsed * ((cfg.speed : ℚ) / 50) * 2)
    ((lights.length : ℤ) + 1) h0
  push_cast at hact
  refine ⟨⟨wipe_expected lights cfg
    (ratTrunc (py_mod (elapsed * ((cfg.speed : ℚ) / 50) * 2)
      ((lights.length : ℚ) + 1))) lights.length,
    color_wipe_frame_eq lights hnd cfg elapsed pal hlk hty hne, ?_⟩,
    by norm_num⟩
  intro j hj
  have hlkup := wipe_expected_lookup lights hnd cfg
    (ratTrunc (py_mod (elapsed * ((cfg.speed : ℚ) / 50) * 2)
      ((lights.length : ℚ) + 1))) j hj
  constructor
  · intro hlt
    rw [← hact] at hlt
    rw [if_pos hlt] at hlkup
    obtain ⟨c, hc⟩ := get_color_strict_ok cfg.palette_name pal
      (((wipe_idx lights.length cfg.reverse j : ℚ) / (lights.length : ℚ)) * 100)
      hlk hty hne
    refine ⟨c, hc, ?_⟩
    rw [hlkup]
    simp only [wipe_rgb_val, hc]
  · intro hge
    rw [← hact] at hge
    rw [if_neg hge] at hlkup
    exact hlkup

/-- Witness for C6: five distinct lights, default config with the builtin
gradient palette "rainbow", elapsed 1 second. -/
theorem color_wipe_frame_spec_witness :
    (∃ updates, color_wipe_frame ["a", "b", "c", "d", "e"]
        ⟨50, 100, "rainbow", false, false⟩ 1 = .ok updates ∧
      ∀ j : ℕ, j < (["a", "b", "c", "d", "e"] : List String).length →
        (((wipe_idx (["a", "b", "c", "d", "e"] : List String).length
              (⟨50, 100, "rainbow", false, false⟩ : EffectConfig).reverse j : ℤ) <
            ⌊(1 : ℚ) * (((⟨50, 100, "rainbow", false, false⟩ :
                EffectConfig).speed : ℚ) / 50) * 2⌋ %
              (((["a", "b", "c", "d", "e"] : List String).length : ℤ) + 1) →
          ∃ c, get_color_strict "rainbow"
              (((wipe_idx (["a", "b", "c", "d", "e"] : List String).length
                  (⟨50, 100, "rainbow", false, false⟩ :
                    EffectConfig).reverse j : ℚ) /
                ((["a", "b", "c", "d", "e"] : List String).length : ℚ)) * 100) =
              .ok c ∧
            updates.lookup
                ((["a", "b", "c", "d", "e"] : List String).getD j "") =
              some [scale_channel (c.red * 255) 100,
                scale_channel (c.green * 255) 100,
                scale_channel (c.blue * 255) 100]) ∧
         (¬ (wipe_idx (["a", "b", "c", "d", "e"] : List String).length
              (⟨50, 100, "rainbow", false, false⟩ : EffectConfig).reverse j : ℤ) <
            ⌊(1 : ℚ) * (((⟨50, 100, "rainbow", false, false⟩ :
                EffectConfig).speed : ℚ) / 50) * 2⌋ %
              (((["a", "b", "c", "d", "e"] : List String).length : ℤ) + 1) →
          updates.lookup ((["a", "b", "c", "d", "e"] : List String).getD j "") =
            some [0, 0, 0]))) ∧
    ⌊(1 : ℚ) * ((50 : ℚ) / 50) * 2⌋ % ((5 : ℤ) + 1) = 2 :=
  color_wipe_frame_spec ["a", "b", "c", "d", "e"]
    ⟨50, 100, "rainbow", false, false⟩ 1 rainbow_palette (by decide)
    rainbow_lookup (Or.inr rfl) (by simp [rainbow_palette])

/-- C7 counterexample: the claim says out-of-range speed/intensity are
clamped into 1-100; in fact EffectConfig stores whatever arrives and no
clamping happens anywhere: starting with speed=200, intensity=150 records
exactly those values, and a rainbow frame computed at speed 200 differs
from the frame at the clamped value 100 — the effect runs with the raw
value, not a clamped one. -/
theorem unclamped_config_counterexample :
    (start_effect ["seq1"] init_engine "seq1" "rainbow"
        ⟨200, 150, "rainbow", false, false⟩).2 = .ok () ∧
    (start_effect ["seq1"] init_engine "seq1" "rainbow"
        ⟨200, 150, "rainbow", false, false⟩).1.running_effects.lookup "seq1" =
      some ⟨"rainbow", ⟨200, 150, "rainbow", false, false⟩, 0⟩ ∧
    ¬ ((200 : ℤ) ≤ 100) ∧ ¬ ((150 : ℤ) ≤ 100) ∧
    rainbow_frame ["l0"] ⟨200, 100, "rainbow", false, false⟩ 1 ≠
      rainbow_frame ["l0"] ⟨100, 100, "rainbow", false, false⟩ 1 := by
  refine ⟨by decide, by decide, by decide, by decide, ?_⟩
  have h200 : rainbow_frame ["l0"] ⟨200, 100, "rainbow", false, false⟩ 1 =
      .ok [("l0", [71, 0, 154])] := by
    norm_num +decide [rainbow_frame, rainbow_loop, rainbow_light_rgb,
      get_color_strict, get_color_at_position, default_palettes,
      rainbow_palette, List.lookup, sort_stops, List.insertionSort,
      List.orderedInsert, find_seg, interpolate_color, interpolate_hue,
      rgb_to_hsv, hsv_to_rgb, ratTrunc, py_mod, upsert, scale_channel]
  have h100 : rainbow_frame ["l0"] ⟨100, 100, "rainbow", false, false⟩ 1 =
      .ok [("l0", [122, 204, 0])] := by
    norm_num +decide [rainbow_frame, rainbow_loop, rainbow_light_rgb,
      get_color_strict, get_color_at_position, default_palettes,
      rainbow_palette, List.lookup, sort_stops, List.insertionSort,
      List.orderedInsert, find_seg, interpolate_color, interpolate_hue,
      rgb_to_hsv, hsv_to_rgb, ratTrunc, py_mod, upsert, scale_channel]
  rw [h200, h100]
  simp

/-- C7 (amended): out-of-range speed and intensity are indeed accepted —
the start call succeeds for any registered sequence and effect kind — but
the values are stored verbatim, not clamped: the recorded RunningEffect
carries the exact config that was supplied, and the effect math consumes
the raw values. -/
theorem start_effect_accepts_unclamped (sequences : List String)
    (st : EngineState) (s e : String) (cfg : EffectConfig)
    (hs : sequences.contains s = true)
    (he : engine_effects.contains e = true) :
    (start_effect sequences st s e cfg).2 = .ok () ∧
    (start_effect sequences st s e cfg).1.running_effects.lookup s =
      some ⟨e, cfg, (stop_effect st s).next_task⟩ :=
  start_effect_success sequences st s e cfg hs he

/-- Witness for C7: a wildly out-of-range config is accepted and recorded
verbatim. -/
theorem start_effect_accepts_unclamped_witness :
    (start_effect ["seq1"] init_engine "seq1" "rainbow"
        ⟨500, -7, "rainbow", false, false⟩).2 = .ok () ∧
    (start_effect ["seq1"] init_engine "seq1" "rainbow"
        ⟨500, -7, "rainbow", false, false⟩).1.running_effects.lookup "seq1" =
      some ⟨"rainbow", ⟨500, -7, "rainbow", false, false⟩,
        (stop_effect init_engine "seq1").next_task⟩ :=
  start_effect_accepts_unclamped ["seq1"] init_engine "seq1" "rainbow"
    ⟨500, -7, "rainbow", false, false⟩ (by decide) (by decide)

theorem c2_state_reach : EngineReach ["seq1"] c2_state := by
  have s1 : EngineStep ["seq1"] init_engine
      ⟨[("seq1", ⟨"rainbow", c2_cfg, 0⟩)], [], 1, [.spawn 0 "seq1"]⟩ := by
    have h := @EngineStep.service_start ["seq1"] init_engine
      "seq1" "rainbow" c2_cfg
    simpa [start_effect, stop_effect, init_engine, engine_effects, upsert,
      List.lookup] using h
  have s2 : EngineStep ["seq1"]
      ⟨[("seq1", ⟨"rainbow", c2_cfg, 0⟩)], [], 1, [.spawn 0 "seq1"]⟩
      ⟨[("seq1", ⟨"rainbow", c2_cfg, 0⟩)], [], 1,
        [.spawn 0 "seq1", .frame 0]⟩ := by
    have h := @EngineStep.frame ["seq1"]
      ⟨[("seq1", ⟨"rainbow", c2_cfg, 0⟩)], [], 1, [.spawn 0 "seq1"]⟩
      "seq1" ⟨"rainbow", c2_cfg, 0⟩ (by simp [List.lookup]) (by simp)
    simpa using h
  have s3 : EngineStep ["seq1"]
      ⟨[("seq1", ⟨"rainbow", c2_cfg, 0⟩)], [], 1,
        [.spawn 0 "seq1", .frame 0]⟩
      ⟨[("seq1", ⟨"rainbow", c2_cfg, 1⟩)], [0], 2,
        [.spawn 0 "seq1", .frame 0, .cancel 0, .task_exit 0,
          .seq_off "seq1", .spawn 1 "seq1"]⟩ := by
    have h := @EngineStep.service_start ["seq1"]
      ⟨[("seq1", ⟨"rainbow", c2_cfg, 0⟩)], [], 1,
        [.spawn 0 "seq1", .frame 0]⟩ "seq1" "rainbow" c2_cfg
    simpa [start_effect, stop_effect, engine_effects, upsert,
      List.lookup, List.filter] using h
  have s4 : EngineStep ["seq1"]
      ⟨[("seq1", ⟨"rainbow", c2_cfg, 1⟩)], [0], 2,
        [.spawn 0 "seq1", .frame 0, .cancel 0, .task_exit 0,
          .seq_off "seq1", .spawn 1 "seq1"]⟩ c2_state := by
    have h := @EngineStep.frame ["seq1"]
      ⟨[("seq1", ⟨"rainbow", c2_cfg, 1⟩)], [0], 2,
        [.spawn 0 "seq1", .frame 0, .cancel 0, .task_exit 0,
          .seq_off "seq1", .spawn 1 "seq1"]⟩
      "seq1" ⟨"rainbow", c2_cfg, 1⟩ (by simp [List.lookup]) (by simp)
    simpa [c2_state] using h
  exact Relation.ReflTransGen.tail (Relation.ReflTransGen.tail
    (Relation.ReflTransGen.tail (Relation.ReflTransGen.tail
      Relation.ReflTransGen.refl s1) s2) s3) s4

/-- C2: in every reachable engine state the _running_effects dict holds at
most one record per sequence name (its keys are duplicate-free); starting
an effect on a sequence always leaves exactly one record for it (the fresh
one, with the new task id) and preserves key uniqueness; and whenever a
task t1 is cancelled in the trace before a task t2 is spawned, every frame
of t1 precedes every frame of t2 — no frame of the superseded effect lands
after any frame (in particular the first) of its replacement. -/
theorem engine_single_record (sequences : List String) (st : EngineState)
    (hreach : EngineReach sequences st) :
    (st.running_effects.map Prod.fst).Nodup ∧
    (∀ s e cfg, sequences.contains s = true →
      engine_effects.contains e = true →
      (start_effect sequences st s e cfg).2 = .ok () ∧
      (start_effect sequences st s e cfg).1.running_effects.lookup s =
        some ⟨e, cfg, (stop_effect st s).next_task⟩ ∧
      ((start_effect sequences st s e cfg).1.running_effects.map
        Prod.fst).Nodup) ∧
    (∀ i j k l t1 t2 s2, st.trace.get? i = some (.cancel t1) → i < j →
      st.trace.get? j = some (.spawn t2 s2) →
      st.trace.get? k = some (.frame t2) →
      st.trace.get? l = some (.frame t1) → l < k) := by
  have hinv := engine_inv_reach sequences st hreach
  refine ⟨hinv.keys_nodup, ?_, ?_⟩
  · intro s e cfg hs he
    obtain ⟨h1, h2⟩ := start_effect_success sequences st s e cfg hs he
    exact ⟨h1, h2, (engine_inv_start sequences st s e cfg hinv).keys_nodup⟩
  · intro i j k l t1 t2 s2 hi hij hj hk hl
    have hli : l < i := hinv.no_frame_after_cancel i l t1 hi hl
    obtain ⟨j2, s3, hj2k, hj2⟩ := hinv.frame_has_spawn k t2 hk
    have hjj : j = j2 := hinv.spawn_unique j j2 t2 s2 s3 hj hj2
    omega

/-- Witness for C2 at the concrete reachable state c2_state: duplicate-free
keys, a successful restart, and the trace-order instance i=2 (cancel of
task 0), j=5 (spawn of task 1), k=6 (frame of task 1), l=1 (frame of task
0) with l < k. -/
theorem engine_single_record_witness :
    (c2_state.running_effects.map Prod.fst).Nodup ∧
    (start_effect ["seq1"] c2_state "seq1" "color_wipe" c2_cfg).2 = .ok () ∧
    (1 : ℕ) < 6 := by
  have h := engine_single_record ["seq1"] c2_state c2_state_reach
  refine ⟨h.1, (h.2.1 "seq1" "color_wipe" c2_cfg (by decide) (by decide)).1, ?_⟩
  exact h.2.2 2 5 6 1 0 1 "seq1" (by decide) (by decide) (by decide)
    (by decide) (by decide)

/-- C9: start_effect on a sequence with a running effect but an
unregistered effect kind is not atomic: the initial stop_effect call has
already cancelled the old task, awaited its exit, deleted its
RunningEffect record and turned the sequence's lights off by the time the
effect lookup raises ValueError, so the failed start still destroys the
previously running effect. -/
theorem start_effect_error_not_atomic (sequences : List String)
    (st : EngineState) (s e : String) (cfg : EffectConfig)
    (re : RunningEffect) (hlk : st.running_effects.lookup s = some re)
    (hs : sequences.contains s = true)
    (he : engine_effects.contains e = false) :
    (start_effect sequences st s e cfg).2 = .error "Effect not found" ∧
    (start_effect sequences st s e cfg).1.running_effects.lookup s = none ∧
    (start_effect sequences st s e cfg).1.trace =
      st.trace ++ [.cancel re.task_id, .task_exit re.task_id, .seq_off s] :=
  start_effect_unknown_effect sequences st s e cfg re hlk hs he

/-- Witness for C9: a state running rainbow (task 0) on seq1; starting the
unknown effect "sparkle" fails yet cancels task 0, removes the record and
turns the sequence off. -/
theorem start_effect_error_not_atomic_witness :
    (start_effect ["seq1"]
        ⟨[("seq1", ⟨"rainbow", ⟨50, 100, "rainbow", false, false⟩, 0⟩)],
          [], 1, []⟩ "seq1" "sparkle" ⟨50, 100, "rainbow", false, false⟩).2 =
      .error "Effect not found" ∧
    (start_effect ["seq1"]
        ⟨[("seq1", ⟨"rainbow", ⟨50, 100, "rainbow", false, false⟩, 0⟩)],
          [], 1, []⟩ "seq1" "sparkle"
        ⟨50, 100, "rainbow", false, false⟩).1.running_effects.lookup "seq1" =
      none ∧
    (start_effect ["seq1"]
        ⟨[("seq1", ⟨"rainbow", ⟨50, 100, "rainbow", false, false⟩, 0⟩)],
          [], 1, []⟩ "seq1" "sparkle"
        ⟨50, 100, "rainbow", false, false⟩).1.trace =
      [] ++ [.cancel 0, .task_exit 0, .seq_off "seq1"] :=
  start_effect_error_not_atomic ["seq1"]
    ⟨[("seq1", ⟨"rainbow", ⟨50, 100, "rainbow", false, false⟩, 0⟩)],
      [], 1, []⟩ "seq1" "sparkle" ⟨50, 100, "rainbow", false, false⟩
    ⟨"rainbow", ⟨50, 100, "rainbow", false, false⟩, 0⟩ (by decide)
    (by decide) (by decide)

theorem rainbow_loop_palette_congr (lights : List String) (n : ℕ)
    (sp it : ℤ) (p1 p2 : String) (rv mr : Bool) (elapsed : ℚ) :
    ∀ (suf : List String) (i : ℕ) (updates : List (String × List ℤ)),
    rainbow_loop lights n ⟨sp, it, p1, rv, mr⟩ elapsed i suf updates =
      rainbow_loop lights n ⟨sp, it, p2, rv, mr⟩ elapsed i suf updates := by
  intro suf
  induction suf with
  | nil =>
    intro i updates
    rfl
  | cons lid rest ih =>
    intro i updates
    have hrgb : rainbow_light_rgb n ⟨sp, it, p1, rv, mr⟩ elapsed i =
        rainbow_light_rgb n ⟨sp, it, p2, rv, mr⟩ elapsed i := rfl
    simp only [rainbow_loop]
    rw [hrgb]
    cases rainbow_light_rgb n ⟨sp, it, p2, rv, mr⟩ elapsed i with
    | error e => rfl
    | ok rgb => exact ih (i + 1) _

/-- C10: RainbowEffect ignores config.palette_name — it always queries the
hardcoded "rainbow" palette — so two configs differing only in
palette_name produce identical frames for every sequence and elapsed
time. -/
theorem rainbow_ignores_palette_name (lights : List String) (elapsed : ℚ)
    (cfg1 cfg2 : EffectConfig) (hsp : cfg1.speed = cfg2.speed)
    (hin : cfg1.intensity = cfg2.intensity)
    (hrv : cfg1.reverse = cfg2.reverse) (hmr : cfg1.mirror = cfg2.mirror) :
    rainbow_frame lights cfg1 elapsed = rainbow_frame lights cfg2 elapsed := by
  obtain ⟨s1, i1, p1, r1, m1⟩ := cfg1
  obtain ⟨s2, i2, p2, r2, m2⟩ := cfg2
  have hs2 : s1 = s2 := hsp
  have hi2 : i1 = i2 := hin
  have hr2 : r1 = r2 := hrv
  have hm2 : m1 = m2 := hmr
  subst hs2
  subst hi2
  subst hr2
  subst hm2
  unfold rainbow_frame
  exact rainbow_loop_palette_congr lights lights.length s1 i1 p1 p2 r1 m1
    elapsed lights 0 []

/-- Witness for C10: two configs differing only in palette_name (one of
them unregistered) give the same frame. -/
theorem rainbow_ignores_palette_name_witness :
    rainbow_frame ["a"] ⟨50, 100, "fire", false, false⟩ 0 =
      rainbow_frame ["a"] ⟨50, 100, "nope", false, false⟩ 0 :=
  rainbow_ignores_palette_name ["a"] 0 ⟨50, 100, "fire", false, false⟩
    ⟨50, 100, "nope", false, false⟩ rfl rfl rfl rfl

/-- C8: create_sequence is all-or-nothing — if fetching capabilities or
state fails for any light in the list, the whole call returns that error
and the registry's sequence map is left exactly as it was (no partially
initialized sequence becomes visible); and whenever the call succeeds,
every fetch succeeded and the sequence is registered only then, as the
single map update performed after the last fetch. -/
theorem create_sequence_atomic {α : Type} (gc gs : String → Except String α)
    (seqs : List (String × LightSequenceModel α)) (name : String)
    (ids : List String) :
    ((∃ lid ∈ ids, (∃ e, gc lid = .error e) ∨ (∃ e, gs lid = .error e)) →
      (∃ e, (create_sequence gc gs seqs name ids).2 = .error e) ∧
      (create_sequence gc gs seqs name ids).1 = seqs) ∧
    (∀ r, (create_sequence gc gs seqs name ids).2 = .ok r →
      (∀ lid ∈ ids, (∃ c, gc lid = .ok c) ∧ (∃ c, gs lid = .ok c)) ∧
      (create_sequence gc gs seqs name ids).1 = upsert seqs name r) := by
  constructor
  · intro hfail
    obtain ⟨e, he⟩ := fetch_all_error gc gs ids hfail
    exact ⟨⟨e, by simp [create_sequence, he]⟩, by simp [create_sequence, he]⟩
  · intro r hok
    cases hf : fetch_all gc gs ids with
    | error e =>
      rw [show create_sequence gc gs seqs name ids = (seqs, .error e) by
        simp [create_sequence, hf]] at hok
      exact Except.noConfusion hok
    | ok data =>
      have hcs : create_sequence gc gs seqs name ids =
          (upsert seqs name ⟨ids, data⟩, .ok ⟨ids, data⟩) := by
        simp [create_sequence, hf]
      rw [hcs] at hok
      have hr : (⟨ids, data⟩ : LightSequenceModel α) = r :=
        Except.ok.inj hok
      refine ⟨fetch_all_ok gc gs ids data hf, ?_⟩
      rw [hcs, ← hr]

/-- Witness for C8: light "bad" fails its capability fetch, so the call on
["good", "bad"] errors and the empty registry stays empty. -/
theorem create_sequence_atomic_witness :
    (∃ e, (create_sequence w_gc w_gs
      ([] : List (String × LightSequenceModel ℕ)) "s" ["good", "bad"]).2 =
        .error e) ∧
    (create_sequence w_gc w_gs
      ([] : List (String × LightSequenceModel ℕ)) "s" ["good", "bad"]).1 =
      [] :=
  (create_sequence_atomic w_gc w_gs [] "s" ["good", "bad"]).1
    ⟨"bad", by simp, Or.inl ⟨"boom", by simp [w_gc]⟩⟩
